import Mathlib

/-!
Verification of the document cache/update layer of Vocard
(`src/voicelink/mongodb.py`, class `MongoDBHandler`).

The Python code is shallowly embedded: Python values occurring in the
documents become the inductive type `Val`, Python `dict`s become
insertion-ordered association lists, the class-level mutable state
(`_settings_buffer`, `_users_buffer`, `_last_access`) becomes the record
`DBState`, and the MongoDB backend becomes the record `Backend` holding the
two collections as lists of documents.  Asynchronous backend calls whose
results are not derivable from local state (`update_one`, `delete_one`)
are passed in as explicit result parameters; `find_one` / `insert_one`
are modelled against the `Backend` record directly.
-/

/-- A Python value as it occurs inside the cached documents: integers,
strings, booleans, lists and (insertion-ordered) string-keyed dicts.
(Floats do not occur in the documents handled by the cogs; Python's
`bool` being an `int` subclass is irrelevant here because no caller
increments a boolean field.) -/
inductive Val where
  | vInt  : Int → Val
  | vStr  : String → Val
  | vBool : Bool → Val
  | vList : List Val → Val
  | vDict : List (String × Val) → Val
deriving Repr

/-- A top-level document: a Python dict from string keys to values. -/
abbrev Obj := List (String × Val)

/-- Lookup in an insertion-ordered association list (Python `d[k]` / `d.get(k)`). -/
def alGet [BEq κ] : List (κ × α) → κ → Option α
  | [], _ => none
  | (k, v) :: rest, key => if k == key then some v else alGet rest key

/-- Python `k in d`. -/
def alMem [BEq κ] (l : List (κ × α)) (key : κ) : Bool :=
  (alGet l key).isSome

/-- Python `d[k] = v`: updates the value in place if the key is present
(keeping its position), otherwise appends the new binding at the end,
matching Python dict insertion-order semantics. -/
def alSet [BEq κ] : List (κ × α) → κ → α → List (κ × α)
  | [], key, v => [(key, v)]
  | (k, w) :: rest, key, v =>
    if k == key then (k, v) :: rest else (k, w) :: alSet rest key v

/-- Python `d.pop(k, None)` / `del d[k]`: removes the binding if present. -/
def alPop [BEq κ] : List (κ × α) → κ → List (κ × α)
  | [], _ => []
  | (k, w) :: rest, key =>
    if k == key then rest else (k, w) :: alPop rest key

/-- Auxiliary for `pySplit`: consumes characters, breaking at `'.'`. -/
def splitDotAux : List Char → List Char → List String
  | [], acc => [String.mk acc.reverse]
  | c :: rest, acc =>
    if c = '.' then String.mk acc.reverse :: splitDotAux rest []
    else splitDotAux rest (c :: acc)

/-- Python `key.split(".")` (always returns a non-empty list;
`"".split(".") == [""]`). -/
def pySplit (s : String) : List String :=
  splitDotAux s.toList []

example : pySplit "playlist.201.name" = ["playlist", "201", "name"] := rfl
example : pySplit "volume" = ["volume"] := rfl
example : pySplit "" = [""] := rfl
example : alSet [("a", (1 : Int)), ("b", 2)] "a" 5 = [("a", 5), ("b", 2)] := rfl
example : alPop [("a", (1 : Int)), ("b", 2)] "a" = [("b", 2)] := rfl

mutual

/-- Python `==` on values.  Dict comparison is order-insensitive
(`{"a": 1, "b": 2} == {"b": 2, "a": 1}` holds in Python): same key count
and every binding of the left dict matched by an equal binding on the right. -/
def Val.beq : Val → Val → Bool
  | .vInt a, .vInt b => a == b
  | .vStr a, .vStr b => a == b
  | .vBool a, .vBool b => a == b
  | .vList a, .vList b => Val.listBeq a b
  | .vDict a, .vDict b => a.length == b.length && Val.dictSub a b
  | _, _ => false

/-- Elementwise Python `==` on lists. -/
def Val.listBeq : List Val → List Val → Bool
  | [], [] => true
  | x :: xs, y :: ys => Val.beq x y && Val.listBeq xs ys
  | _, _ => false

/-- Every binding of the first dict has an equal binding in the second. -/
def Val.dictSub : List (String × Val) → List (String × Val) → Bool
  | [], _ => true
  | (k, v) :: rest, m =>
    (match alGet m k with
     | some w => Val.beq v w
     | none => false) && Val.dictSub rest m

end

/-- Python `x in values` with `values` a list (used by `$pull`). -/
def pyElem (x : Val) (values : List Val) : Bool :=
  values.any (fun v => Val.beq x v)

/-- Python list slicing `arr[n:]` with an `int` index: a non-negative `n`
drops the first `n` elements; a negative `n` keeps the last `|n|` elements
(the whole list when `|n| ≥ len`). -/
def pySliceFrom (n : Int) (l : List Val) : List Val :=
  if 0 ≤ n then l.drop n.toNat
  else l.drop (l.length - (-n).toNat)

example : pySliceFrom 3 [.vInt 1, .vInt 2, .vInt 3, .vInt 4, .vInt 5]
    = [.vInt 4, .vInt 5] := rfl
example : pySliceFrom (-3) [.vInt 1, .vInt 2, .vInt 3, .vInt 4, .vInt 5]
    = [.vInt 3, .vInt 4, .vInt 5] := rfl
example : pySliceFrom 0 [.vInt 1] = [.vInt 1] := rfl

/-- The body of `_update_db`'s per-operator branch (`mongodb.py` lines
224-250): one edit `(mode, field, value)` applied to the dict `obj` that
the path walk ended on.  Every Python exception raised inside the branch
(the explicit `ValueError`s as well as `TypeError`s from misuse) becomes
an `Except.error`; the messages of the explicit raises are kept. -/
def applyField (mode : String) (obj : Obj) (field : String) (value : Val) :
    Except String Obj :=
  if mode == "$set" then
    .ok (alSet obj field value)
  else if mode == "$unset" then
    .ok (alPop obj field)
  else if mode == "$inc" then
    -- `if not isinstance(nested.get(field, 0), (int, float)): raise`
    match (alGet obj field).getD (.vInt 0) with
    | .vInt n =>
      -- `nested[field] = nested.get(field, 0) + value`; a non-numeric
      -- `value` makes the addition itself raise a TypeError
      match value with
      | .vInt d => .ok (alSet obj field (.vInt (n + d)))
      | _ => .error ("unsupported operand type for +: " ++ field)
    | _ => .error ("Cannot increment non-numeric field: " ++ field)
  else if mode == "$push" then
    -- `arr = nested.setdefault(field, [])`
    match (alGet obj field).getD (.vList []) with
    | .vList arr =>
      match value with
      | .vDict m =>
        if alMem m "$each" then
          match alGet m "$each" with
          | some (.vList each) =>
            let arr1 := arr ++ each
            -- `if "$slice" in value: arr[:] = arr[value["$slice"]:]`
            if alMem m "$slice" then
              match alGet m "$slice" with
              | some (.vInt n) => .ok (alSet obj field (.vList (pySliceFrom n arr1)))
              | _ => .error ("slice indices must be integers: " ++ field)
            else .ok (alSet obj field (.vList arr1))
          -- `arr.extend(...)` of a non-list is not used by this repository
          | _ => .error ("argument to extend is not a list: " ++ field)
        else .ok (alSet obj field (.vList (arr ++ [value])))
      | _ => .ok (alSet obj field (.vList (arr ++ [value])))
    | _ => .error ("Cannot push to non-array field: " ++ field)
  else if mode == "$pull" then
    -- `if field in nested:` (absent field is a no-op)
    match alGet obj field with
    | none => .ok obj
    | some (.vList arr) =>
      -- `values = value.get("$in", []) if isinstance(value, dict) else [value]`
      match value with
      | .vDict m =>
        match alGet m "$in" with
        | none => .ok (alSet obj field (.vList arr))
        | some (.vList values) =>
          .ok (alSet obj field (.vList (arr.filter (fun item => !pyElem item values))))
        -- membership in a non-list `$in` operand is not used by this repository
        | some _ => .error ("argument of type is not iterable: " ++ field)
      | _ =>
        .ok (alSet obj field (.vList (arr.filter (fun item => !Val.beq item value))))
    | some _ => .error ("Cannot pull from non-array field: " ++ field)
  else
    -- unreachable after the up-front operator validation
    .error ("Invalid update operation: " ++ mode)

/-- The path walk of `_update_db` (lines 213-250): `key.split(".")` is
walked with `nested = nested.setdefault(c, {})`.  A non-dict value met
at the start of an intermediate iteration raises the *unwrapped*
`ValueError(f"Invalid path: {key}")` of line 219; once the walk ends,
the operator branch of lines 224-248 runs inside the inner `try`, so
any exception it raises is re-wrapped by line 250 as
`ValueError(f"Error updating {key}: ...")`.  When the value returned by
the last intermediate `setdefault` is not a dict the loop has already
ended, so the operator branch fails inside the `try` — except `$pull`,
whose `if field in nested:` test on a non-dict *list* is an ordinary
(false-ish) membership test and silently no-ops. -/
def walkApply (mode : String) (value : Val) (origKey : String) :
    List String → Obj → Except String Obj
  | [], _ => .error ("Invalid path: " ++ origKey)
  | [field], obj =>
    match applyField mode obj field value with
    | .ok r => .ok r
    | .error e => .error ("Error updating " ++ origKey ++ ": " ++ e)
  | c :: rest, obj =>
    match alGet obj c with
    | some (.vDict inner) => do
      let inner' ← walkApply mode value origKey rest inner
      .ok (alSet obj c (.vDict inner'))
    | some v =>
      match rest with
      | _ :: _ :: _ =>
        -- another intermediate iteration starts and its isinstance check fires
        .error ("Invalid path: " ++ origKey)
      | [field] =>
        -- the loop is over; the operator branch runs on a non-dict `nested`
        match mode, v with
        | "$pull", .vList items =>
          -- `if field in nested:` on a list: membership of the field name
          if pyElem (.vStr field) items then
            .error ("Error updating " ++ origKey ++ ": list indices must be integers")
          else .ok obj
        | _, _ =>
          .error ("Error updating " ++ origKey ++ ": non-dict value at " ++ c)
      | [] => .error ("Invalid path: " ++ origKey)
    | none => do
      -- `setdefault(c, {})` inserts an empty dict and the walk continues in it
      let inner' ← walkApply mode value origKey rest []
      .ok (alSet obj c (.vDict inner'))

/-- One edit `key: value` under operator `mode` (lines 212-250). -/
def applyEdit (mode : String) (obj : Obj) (key : String) (value : Val) :
    Except String Obj :=
  walkApply mode value key (pySplit key) obj

/-- All edits of one operator, in dict order. -/
def applyAction (mode : String) (obj : Obj) (edits : List (String × Val)) :
    Except String Obj :=
  edits.foldlM (fun acc kv => applyEdit mode acc kv.1 kv.2) obj

/-- The update payload: operator name ↦ list of `field-path ↦ value` edits,
both in Python dict (insertion) order. -/
abbrev Ops := List (String × List (String × Val))

/-- The set `valid_operations` of `_update_db` (line 206). -/
def validOp (op : String) : Bool :=
  op == "$set" || op == "$unset" || op == "$inc" || op == "$push" || op == "$pull"

/-- The pure core of `_update_db` (lines 205-250): validate all operator
names up front, then apply every edit, in order, to the document. -/
def updateDbPure (obj : Obj) (ops : Ops) : Except String Obj :=
  if !(ops.all (fun p => validOp p.1)) then
    .error "Invalid update operation. Must be one of $set $unset $inc $push $pull"
  else
    ops.foldlM (fun acc p => applyAction p.1 acc p.2) obj

/-- Python exception classes that escape the handler's methods. -/
inductive PyErr where
  | valueError : String → PyErr
  | connectionError : String → PyErr
  | exception : String → PyErr
deriving Repr, DecidableEq

/-- The class-level mutable state of `MongoDBHandler`:
`_settings_buffer`, `_users_buffer` and the shared `_last_access` map
(all three keyed by the raw numeric id; `_last_access` is a single dict
used by both collections, `mongodb.py` line 72). -/
structure DBState where
  settingsBuffer : List (Int × Obj)
  usersBuffer : List (Int × Obj)
  lastAccess : List (Int × Nat)
deriving Repr

/-- The persistent MongoDB backend: each collection is the list of its
documents in insertion order. -/
structure Backend where
  settings : List Obj
  users : List Obj
deriving Repr

/-- `collection.find_one({"_id": k})`: the first document whose `_id`
field equals `k`. -/
def findOne (coll : List Obj) (k : Int) : Option Obj :=
  coll.find? (fun d =>
    match alGet d "_id" with
    | some (.vInt i) => i == k
    | _ => false)

/-- `collection.insert_one(doc)`. -/
def insertOne (coll : List Obj) (doc : Obj) : List Obj :=
  coll ++ [doc]

/-- `collection.delete_one({"_id": k})`: removes the first matching
document; the second component reports `deleted_count > 0`. -/
def deleteOne : List Obj → Int → List Obj × Bool
  | [], _ => ([], false)
  | d :: rest, k =>
    match alGet d "_id" with
    | some (.vInt i) =>
      if i == k then (rest, true)
      else let (rest', b) := deleteOne rest k; (d :: rest', b)
    | _ => let (rest', b) := deleteOne rest k; (d :: rest', b)

/-- The default user template `_user_base` (lines 78-90), with its
literal `"_id": 0` entry. -/
def userBase : Obj :=
  [("_id", .vInt 0),
   ("playlist", .vDict
     [("200", .vDict
       [("tracks", .vList []),
        ("perms", .vDict [("read", .vList []), ("write", .vList []), ("remove", .vList [])]),
        ("name", .vStr "Favourite"),
        ("type", .vStr "playlist")])]),
   ("history", .vList []),
   ("inbox", .vList [])]

/-- Python dict-literal merge `{"_id": k, **extra}`: start from the
primary-key binding and fold the other dict in, later keys overwriting
earlier values while keeping the first occurrence's position. -/
def mergeObj (base extra : Obj) : Obj :=
  extra.foldl (fun acc kv => alSet acc kv.1 kv.2) base

/-- The cache TTL `_CACHE_TTL` (line 69). -/
def CACHE_TTL : Nat := 300

/-- The maximum cache size `_MAX_CACHE_SIZE` (line 75). -/
def MAX_CACHE_SIZE : Nat := 10000

/-- `get_settings(guild_id, force_refresh)` (lines 268-306), at wall-clock
time `now`.  On a cache miss (or forced refresh) the document is fetched
by primary key; a missing document is created as `{"_id": guild_id}` and
inserted; the entry and its access timestamp are cached.  The returned
document is `copy.deepcopy` of the cache entry (a pure value here; the
heap-level content of that deep copy is studied separately below). -/
def getSettings (now : Nat) (k : Int) (forceRefresh : Bool)
    (st : DBState) (bk : Backend) : Except PyErr Obj × DBState × Backend :=
  if forceRefresh || !alMem st.settingsBuffer k then
    match findOne bk.settings k with
    | some doc =>
      let st' := { st with settingsBuffer := alSet st.settingsBuffer k doc,
                           lastAccess := alSet st.lastAccess k now }
      (.ok doc, st', bk)
    | none =>
      let doc : Obj := [("_id", .vInt k)]
      let bk' := { bk with settings := insertOne bk.settings doc }
      let st' := { st with settingsBuffer := alSet st.settingsBuffer k doc,
                           lastAccess := alSet st.lastAccess k now }
      (.ok doc, st', bk')
  else
    match alGet st.settingsBuffer k with
    | some doc => (.ok doc, st, bk)
    | none => (.error (.connectionError "Failed to retrieve settings: unreachable"), st, bk)

/-- `get_user(user_id, d_type, need_copy, force_refresh)` (lines 352-402).
On a miss the default document is built as the Python dict literal
`{"_id": user_id, **copy.deepcopy(cls._user_base)}` — whose `_user_base`
entry `"_id": 0` overwrites `user_id` — inserted into the backend, and
cached under `user_id`.  A requested `d_type` must be a top-level key of
`_user_base` and is lazily default-populated in the cached document by
`setdefault`.  All exceptions are re-raised as `ConnectionError`. -/
def getUser (now : Nat) (k : Int) (dType : Option String)
    (st : DBState) (bk : Backend) (forceRefresh : Bool := false) :
    Except PyErr Val × DBState × Backend :=
  let fetched : Except PyErr (Obj × DBState × Backend) :=
    if forceRefresh || !alMem st.usersBuffer k then
      match findOne bk.users k with
      | some doc =>
        .ok (doc, { st with usersBuffer := alSet st.usersBuffer k doc,
                            lastAccess := alSet st.lastAccess k now }, bk)
      | none =>
        let doc := mergeObj [("_id", .vInt k)] userBase
        .ok (doc, { st with usersBuffer := alSet st.usersBuffer k doc,
                            lastAccess := alSet st.lastAccess k now },
             { bk with users := insertOne bk.users doc })
    else
      match alGet st.usersBuffer k with
      | some doc => .ok (doc, st, bk)
      | none => .error (.connectionError "Failed to retrieve user data: unreachable")
  match fetched with
  | .error e => (.error e, st, bk)
  | .ok (doc, st1, bk1) =>
    match dType with
    | none => (.ok (.vDict doc), st1, bk1)
    | some t =>
      if !alMem userBase t then
        (.error (.connectionError ("Failed to retrieve user data: Invalid data type: " ++ t)),
         st1, bk1)
      else
        -- `user.setdefault(d_type, copy.deepcopy(cls._user_base.get(d_type)))`
        match alGet doc t with
        | some sub => (.ok sub, st1, bk1)
        | none =>
          let sub := (alGet userBase t).getD (.vInt 0)
          let doc' := alSet doc t sub
          (.ok sub, { st1 with usersBuffer := alSet st1.usersBuffer k doc' }, bk1)

/-- The except-clause of `_update_db` (lines 263-265): pop the key from
both buffers. -/
def evictBoth (k : Int) (st : DBState) : DBState :=
  { st with settingsBuffer := alPop st.settingsBuffer k,
            usersBuffer := alPop st.usersBuffer k }

/-- `_update_db(db, cache, {"_id": k}, data)` (lines 180-266) given the
document `cacheDoc` the caller passed as `cache` and the outcome
`backendRes` of `db.update_one` (the modified count, or the message of
the raised exception).  On success the access timestamp is refreshed and
`modified_count > 0` returned; on any failure — validation while mutating
the cache, or the backend call — the key is evicted from both buffers and
the wrapped exception propagates.  The mutated document is returned so
that the caller can account for the aliasing of its `cache` argument. -/
def runUpdateDb (now : Nat) (k : Int) (cacheDoc : Obj) (ops : Ops)
    (backendRes : Except String Nat) (st : DBState) :
    Except PyErr Bool × Obj × DBState :=
  match updateDbPure cacheDoc ops with
  | .error e =>
    (.error (.exception ("Update failed: " ++ e)), cacheDoc, evictBoth k st)
  | .ok newDoc =>
    match backendRes with
    | .error e =>
      (.error (.exception ("Update failed: " ++ e)), newDoc, evictBoth k st)
    | .ok modified =>
      (.ok (decide (0 < modified)), newDoc,
       { st with lastAccess := alSet st.lastAccess k now })

/-- `data.get("$set", {})` (used by the upsert branches). -/
def getSetOperand (ops : Ops) : List (String × Val) :=
  (alGet ops "$set").getD []

/-- `update_settings(guild_id, data, upsert)` (lines 308-350).  The
document handed to `_update_db` as its `cache` argument is the *deep
copy* returned by `get_settings`, so the cached entry in
`_settings_buffer` is not written; on failure every exception is
re-raised as `ConnectionError`. -/
def updateSettings (now : Nat) (k : Int) (ops : Ops) (upsert : Bool)
    (st : DBState) (bk : Backend) (backendRes : Except String Nat) :
    Except PyErr Bool × DBState × Backend :=
  match getSettings now k false st bk with
  | (.error e, st1, bk1) =>
    ((match e with
      | .connectionError m => .error (.connectionError ("Failed to update settings: " ++ m))
      | .valueError m => .error (.connectionError ("Failed to update settings: " ++ m))
      | .exception m => .error (.connectionError ("Failed to update settings: " ++ m))),
     st1, bk1)
  | (.ok copyDoc, st1, bk1) =>
    match runUpdateDb now k copyDoc ops backendRes st1 with
    | (.error e, _, st2) =>
      ((match e with
        | .connectionError m => .error (.connectionError ("Failed to update settings: " ++ m))
        | .valueError m => .error (.connectionError ("Failed to update settings: " ++ m))
        | .exception m => .error (.connectionError ("Failed to update settings: " ++ m))),
       st2, bk1)
    | (.ok r, _, st2) =>
      if !r && upsert then
        let newdoc := mergeObj [("_id", .vInt k)] (getSetOperand ops)
        (.ok true,
         { st2 with settingsBuffer := alSet st2.settingsBuffer k newdoc },
         { bk1 with settings := insertOne bk1.settings newdoc })
      else (.ok r, st2, bk1)

/-- `update_user(user_id, data, upsert)` (lines 404-446).  Here
`get_user(..., need_copy=False)` hands `_update_db` the *live* cached
dict, so a successful update writes the mutated document back into
`_users_buffer`; failures evict the key and surface as
`ConnectionError`. -/
def updateUser (now : Nat) (k : Int) (ops : Ops) (upsert : Bool)
    (st : DBState) (bk : Backend) (backendRes : Except String Nat) :
    Except PyErr Bool × DBState × Backend :=
  match getUser now k none st bk with
  | (.error e, st1, bk1) =>
    ((match e with
      | .connectionError m => .error (.connectionError ("Failed to update user: " ++ m))
      | .valueError m => .error (.connectionError ("Failed to update user: " ++ m))
      | .exception m => .error (.connectionError ("Failed to update user: " ++ m))),
     st1, bk1)
  | (.ok userVal, st1, bk1) =>
    let doc : Obj := match userVal with | .vDict d => d | _ => []
    match runUpdateDb now k doc ops backendRes st1 with
    | (.error e, _, st2) =>
      ((match e with
        | .connectionError m => .error (.connectionError ("Failed to update user: " ++ m))
        | .valueError m => .error (.connectionError ("Failed to update user: " ++ m))
        | .exception m => .error (.connectionError ("Failed to update user: " ++ m))),
       st2, bk1)
    | (.ok r, newDoc, st2) =>
      -- the live aliasing of `cache` with `_users_buffer[user_id]`
      let st3 := { st2 with usersBuffer := alSet st2.usersBuffer k newDoc }
      if !r && upsert then
        let newdoc := mergeObj [("_id", .vInt k)] (getSetOperand ops)
        (.ok true,
         { st3 with usersBuffer := alSet st3.usersBuffer k newdoc },
         { bk1 with users := insertOne bk1.users newdoc })
      else (.ok r, st3, bk1)

/-- `delete_user(user_id)` (lines 448-472): the buffers and the access
timestamp are dropped only on a confirmed backend deletion. -/
def deleteUser (k : Int) (st : DBState) (bk : Backend) :
    Except PyErr Bool × DBState × Backend :=
  let (users', deleted) := deleteOne bk.users k
  if deleted then
    (.ok true,
     { st with usersBuffer := alPop st.usersBuffer k,
               lastAccess := alPop st.lastAccess k },
     { bk with users := users' })
  else (.ok false, st, bk)

/-- `get_users_by_criteria(criteria, limit, skip)` (lines 474-514).  The
backend query filter is abstracted as the predicate `pred`; `skip(n)`
drops the first `n` matches and — exactly as in `if limit:` — a limit is
applied only when it is truthy (neither `None` nor `0`).  Every returned
document is written into the users cache under its `_id` field with the
current timestamp. -/
def getUsersByCriteria (now : Nat) (pred : Obj → Bool)
    (limit : Option Int) (skip : Nat) (st : DBState) (bk : Backend) :
    List Obj × DBState :=
  let matched := (bk.users.filter pred).drop skip
  let users :=
    match limit with
    | some l => if l != 0 then matched.take l.natAbs else matched
    | none => matched
  let st' := users.foldl (fun (s : DBState) (d : Obj) =>
    match alGet d "_id" with
    | some (.vInt i) =>
      { s with usersBuffer := alSet s.usersBuffer i d,
               lastAccess := alSet s.lastAccess i now }
    | _ => s) st
  (users, st')

/-- The `expired_settings` list of `cleanup_cache` (lines 157-160): ids
from `_last_access` whose age exceeds the TTL *and* which are present in
`_settings_buffer`.  (`current_time - last_access` on Nat truncates at 0
exactly like the float comparison stays below a positive TTL.) -/
def expiredSettings (ttl now : Nat) (st : DBState) : List Int :=
  (st.lastAccess.filter
    (fun p => decide (ttl < now - p.2) && alMem st.settingsBuffer p.1)).map (fun p => p.1)

/-- The loop body of lines 163-166: delete one id from the settings
buffer and from `_last_access`. -/
def popBoth (s : DBState) (g : Int) : DBState :=
  { s with settingsBuffer := alPop s.settingsBuffer g,
           lastAccess := alPop s.lastAccess g }

/-- Phase 1 of `cleanup_cache` (lines 163-166): delete every expired id
from the settings buffer and from `_last_access`. -/
def dropExpired (ttl now : Nat) (st : DBState) : DBState :=
  (expiredSettings ttl now st).foldl popBoth st

/-- `min(cls._last_access.items(), key=lambda x: x[1])`: the first entry
with the minimal timestamp, `none` on an empty dict (Python `min` raises
`ValueError` there). -/
def argminTS : List (Int × Nat) → Option (Int × Nat)
  | [] => none
  | p :: rest =>
    some (match argminTS rest with
          | none => p
          | some q => if p.2 ≤ q.2 then p else q)

/-- The `while` loop of `cleanup_cache` (lines 169-173), run with enough
fuel: while the settings buffer exceeds `maxSize`, delete the overall
least-recently-accessed id from the settings buffer and `_last_access`.
If `_last_access` is empty (`min` raises `ValueError`) or the chosen id
is not a settings key (`del cls._settings_buffer[oldest_id]` raises
`KeyError`), the surrounding `except` swallows the exception and the
sweep stops with the state as it is.  Each successful iteration removes
one settings entry, so fuel equal to the settings-buffer length makes
the fuelled loop agree with the unbounded one. -/
def trimLoop (maxSize : Nat) : Nat → DBState → DBState
  | 0, st => st
  | fuel + 1, st =>
    if maxSize < st.settingsBuffer.length then
      match argminTS st.lastAccess with
      | none => st
      | some (oldest, _) =>
        if alMem st.settingsBuffer oldest then
          trimLoop maxSize fuel
            { st with settingsBuffer := alPop st.settingsBuffer oldest,
                      lastAccess := alPop st.lastAccess oldest }
        else st
    else st

/-- `cleanup_cache` (lines 145-178) with the TTL and maximum size as
explicit parameters: remove expired settings entries, then trim the
settings buffer down to `maxSize` by least-recently-accessed order.
The users buffer is never touched. -/
def cleanupCacheWith (ttl maxSize now : Nat) (st : DBState) : DBState :=
  let st1 := dropExpired ttl now st
  trimLoop maxSize st1.settingsBuffer.length st1

/-- `cleanup_cache` at the configured constants. -/
def cleanupCache (now : Nat) (st : DBState) : DBState :=
  cleanupCacheWith CACHE_TTL MAX_CACHE_SIZE now st

/-! ### Association-list lemmas

Python dicts never hold a key twice; states built by the handler keep
that invariant, which the theorems below carry as `NoDupKeys`. -/

/-- The keys of the association list are pairwise distinct. -/
def NoDupKeys [BEq κ] [LawfulBEq κ] (l : List (κ × α)) : Prop :=
  l.Pairwise (fun a b => a.1 ≠ b.1)

theorem alGet_eq_some_mem [BEq κ] [LawfulBEq κ] {l : List (κ × α)} {k : κ} {v : α}
    (h : alGet l k = some v) : (k, v) ∈ l := by
  induction l with
  | nil => simp [alGet] at h
  | cons p rest ih =>
    rw [alGet] at h
    by_cases hb : p.1 == k
    · simp [hb] at h
      have : p.1 = k := eq_of_beq hb
      rw [List.mem_cons]
      left
      cases p
      simp_all
    · simp [hb] at h
      exact List.mem_cons_of_mem _ (ih h)

theorem mem_alGet_isSome [BEq κ] [LawfulBEq κ] {l : List (κ × α)} {k : κ} {v : α}
    (h : (k, v) ∈ l) : (alGet l k).isSome := by
  induction l with
  | nil => simp at h
  | cons p rest ih =>
    rw [alGet]
    by_cases hb : p.1 == k
    · simp [hb]
    · simp [hb]
      rcases List.mem_cons.mp h with h1 | h2
      · exfalso; apply hb; rw [← h1]; simp
      · exact ih h2

theorem alGet_of_mem_nodup [BEq κ] [LawfulBEq κ] {l : List (κ × α)} {k : κ} {v : α}
    (hnd : NoDupKeys l) (h : (k, v) ∈ l) : alGet l k = some v := by
  induction l with
  | nil => simp at h
  | cons p rest ih =>
    have hnd' := List.pairwise_cons.mp hnd
    rw [alGet]
    rcases List.mem_cons.mp h with h1 | h2
    · rw [← h1]; simp
    · have hne : ¬ (p.1 == k) := by
        intro hb
        exact hnd'.1 (k, v) h2 (by simpa using (eq_of_beq hb))
      simp [hne]
      exact ih hnd'.2 h2

theorem alPop_sublist [BEq κ] (l : List (κ × α)) (k : κ) :
    (alPop l k).Sublist l := by
  induction l with
  | nil => simp [alPop]
  | cons p rest ih =>
    rw [alPop]
    by_cases hb : p.1 == k
    · simp only [hb, if_pos]
      cases p
      exact List.sublist_cons_of_sublist _ (List.Sublist.refl _)
    · simp only [hb, if_neg, Bool.false_eq_true, not_false_eq_true]
      cases p
      exact List.Sublist.cons₂ _ ih

theorem nodup_alPop [BEq κ] [LawfulBEq κ] {l : List (κ × α)} {k : κ}
    (hnd : NoDupKeys l) : NoDupKeys (alPop l k) :=
  List.Pairwise.sublist (alPop_sublist l k) hnd

theorem alGet_alPop_self [BEq κ] [LawfulBEq κ] {l : List (κ × α)} {k : κ}
    (hnd : NoDupKeys l) : alGet (alPop l k) k = none := by
  induction l with
  | nil => simp [alPop, alGet]
  | cons p rest ih =>
    have hnd' := List.pairwise_cons.mp hnd
    rw [alPop]
    by_cases hb : p.1 == k
    · simp only [hb, if_pos]
      have hk : p.1 = k := eq_of_beq hb
      cases hget : alGet rest k with
      | none => rfl
      | some v =>
        exfalso
        exact hnd'.1 (k, v) (alGet_eq_some_mem hget) hk
    · simp only [hb, if_neg, Bool.false_eq_true, not_false_eq_true]
      rw [alGet]
      simp [hb]
      exact ih hnd'.2

theorem alGet_alPop_ne [BEq κ] [LawfulBEq κ] {l : List (κ × α)} {kp k : κ}
    (hne : k ≠ kp) : alGet (alPop l kp) k = alGet l k := by
  induction l with
  | nil => simp [alPop]
  | cons p rest ih =>
    rw [alPop]
    by_cases hb : p.1 == kp
    · simp only [hb, if_pos]
      rw [alGet]
      have : ¬ (p.1 == k) := by
        intro h
        exact hne (by rw [← eq_of_beq h, eq_of_beq hb])
      simp [this]
    · simp only [hb, if_neg, Bool.false_eq_true, not_false_eq_true]
      rw [alGet, alGet]
      by_cases hb2 : p.1 == k
      · simp [hb2]
      · simp [hb2]; exact ih

theorem alPop_length_of_mem [BEq κ] {l : List (κ × α)} {k : κ}
    (h : (alGet l k).isSome) : (alPop l k).length + 1 = l.length := by
  induction l with
  | nil => simp [alGet] at h
  | cons p rest ih =>
    rw [alGet] at h
    rw [alPop]
    by_cases hb : p.1 == k
    · simp [hb]
    · simp only [hb, if_neg, Bool.false_eq_true, not_false_eq_true]
      simp [hb] at h
      simp [ih h]

theorem alPop_eq_of_not_mem [BEq κ] {l : List (κ × α)} {k : κ}
    (h : alGet l k = none) : alPop l k = l := by
  induction l with
  | nil => simp [alPop]
  | cons p rest ih =>
    rw [alGet] at h
    rw [alPop]
    by_cases hb : p.1 == k
    · simp [hb] at h
    · simp [hb] at h ⊢
      exact ih h

theorem alGet_alSet_self [BEq κ] [LawfulBEq κ] (l : List (κ × α)) (k : κ) (v : α) :
    alGet (alSet l k v) k = some v := by
  induction l with
  | nil => simp [alSet, alGet]
  | cons p rest ih =>
    rw [alSet]
    by_cases hb : p.1 == k
    · simp only [hb, if_pos]
      rw [alGet]
      simp [hb]
    · simp only [hb, if_neg, Bool.false_eq_true, not_false_eq_true]
      rw [alGet]
      simp [hb]
      exact ih

theorem alGet_alSet_ne [BEq κ] [LawfulBEq κ] {l : List (κ × α)} {ks k : κ} (v : α)
    (hne : k ≠ ks) : alGet (alSet l ks v) k = alGet l k := by
  induction l with
  | nil =>
    simp only [alSet, alGet]
    have : ¬ (ks == k) := by
      intro hb
      exact hne (Eq.symm (eq_of_beq hb))
    simp [this]
  | cons p rest ih =>
    rw [alSet]
    by_cases hb : p.1 == ks
    · simp only [hb, if_pos]
      rw [alGet, alGet]
      have : ¬ (p.1 == k) := by
        intro h
        exact hne (by rw [← eq_of_beq h, eq_of_beq hb])
      simp [this]
    · simp only [hb, if_neg, Bool.false_eq_true, not_false_eq_true]
      rw [alGet, alGet]
      by_cases hb2 : p.1 == k
      · simp [hb2]
      · simp [hb2]; exact ih

theorem argminTS_mem {l : List (Int × Nat)} {p : Int × Nat}
    (h : argminTS l = some p) : p ∈ l := by
  induction l generalizing p with
  | nil => simp [argminTS] at h
  | cons q rest ih =>
    rw [argminTS] at h
    cases hrest : argminTS rest with
    | none =>
      rw [hrest] at h
      simp at h
      simp [← h]
    | some r =>
      rw [hrest] at h
      simp at h
      by_cases hle : q.2 ≤ r.2
      · simp [hle] at h; simp [← h]
      · simp [hle] at h
        exact List.mem_cons_of_mem _ (ih (by rw [hrest, h]))

theorem argminTS_isSome {l : List (Int × Nat)} (h : l ≠ []) :
    (argminTS l).isSome := by
  cases l with
  | nil => exact absurd rfl h
  | cons q rest => simp [argminTS]

/-! ### Lemmas about the maintenance sweep -/

/-- Both cache maps of the state hold exactly the same keys (no
user-cache interference in `_last_access`). -/
def KeysEq (st : DBState) : Prop :=
  ∀ k : Int, alMem st.lastAccess k = alMem st.settingsBuffer k

theorem foldPopBoth_users (ids : List Int) (st : DBState) :
    (ids.foldl popBoth st).usersBuffer = st.usersBuffer := by
  induction ids generalizing st with
  | nil => rfl
  | cons g rest ih => rw [List.foldl_cons, ih]; rfl

theorem foldPopBoth_settings_get (ids : List Int) (st : DBState) (k : Int)
    (hnd : NoDupKeys st.settingsBuffer) :
    alGet (ids.foldl popBoth st).settingsBuffer k
      = if k ∈ ids then none else alGet st.settingsBuffer k := by
  induction ids generalizing st with
  | nil => simp
  | cons g rest ih =>
    rw [List.foldl_cons, ih (popBoth st g) (nodup_alPop hnd)]
    by_cases hres : k ∈ rest
    · simp [hres]
    · by_cases hkg : k = g
      · subst hkg
        simp [hres, popBoth, alGet_alPop_self hnd]
      · simp [hres, hkg, popBoth, alGet_alPop_ne hkg]

theorem foldPopBoth_lastAccess_get (ids : List Int) (st : DBState) (k : Int)
    (hnd : NoDupKeys st.lastAccess) :
    alGet (ids.foldl popBoth st).lastAccess k
      = if k ∈ ids then none else alGet st.lastAccess k := by
  induction ids generalizing st with
  | nil => simp
  | cons g rest ih =>
    rw [List.foldl_cons, ih (popBoth st g) (nodup_alPop hnd)]
    by_cases hres : k ∈ rest
    · simp [hres]
    · by_cases hkg : k = g
      · subst hkg
        simp [hres, popBoth, alGet_alPop_self hnd]
      · simp [hres, hkg, popBoth, alGet_alPop_ne hkg]

theorem foldPopBoth_nodup_settings (ids : List Int) (st : DBState)
    (hnd : NoDupKeys st.settingsBuffer) :
    NoDupKeys (ids.foldl popBoth st).settingsBuffer := by
  induction ids generalizing st with
  | nil => exact hnd
  | cons g rest ih => exact ih _ (nodup_alPop hnd)

theorem foldPopBoth_nodup_lastAccess (ids : List Int) (st : DBState)
    (hnd : NoDupKeys st.lastAccess) :
    NoDupKeys (ids.foldl popBoth st).lastAccess := by
  induction ids generalizing st with
  | nil => exact hnd
  | cons g rest ih => exact ih _ (nodup_alPop hnd)

theorem mem_expiredSettings_iff {ttl now : Nat} {st : DBState} {k : Int} {t : Nat}
    (hndl : NoDupKeys st.lastAccess) (hget : alGet st.lastAccess k = some t) :
    k ∈ expiredSettings ttl now st ↔ (ttl < now - t ∧ alMem st.settingsBuffer k = true) := by
  unfold expiredSettings
  constructor
  · intro h
    rcases List.mem_map.mp h with ⟨p, hp, hpk⟩
    rcases List.mem_filter.mp hp with ⟨hmem, hcond⟩
    have hpt : alGet st.lastAccess p.1 = some p.2 := by
      cases p
      exact alGet_of_mem_nodup hndl hmem
    rw [hpk] at hpt
    rw [hget] at hpt
    have : p.2 = t := by
      injection hpt with h
      exact h.symm
    rw [Bool.and_eq_true, decide_eq_true_eq] at hcond
    exact ⟨by rw [← this]; exact hcond.1, by rw [← hpk]; exact hcond.2⟩
  · intro ⟨h1, h2⟩
    apply List.mem_map.mpr
    refine ⟨(k, t), List.mem_filter.mpr ⟨alGet_eq_some_mem hget, ?_⟩, rfl⟩
    rw [Bool.and_eq_true, decide_eq_true_eq]
    exact ⟨h1, h2⟩

theorem not_mem_expiredSettings {ttl now : Nat} {st : DBState} {k : Int}
    (hget : alGet st.lastAccess k = none) : k ∉ expiredSettings ttl now st := by
  intro h
  rcases List.mem_map.mp h with ⟨p, hp, hpk⟩
  rcases List.mem_filter.mp hp with ⟨hmem, _⟩
  have : (alGet st.lastAccess p.1).isSome := by
    cases p with
    | mk pk pv => exact mem_alGet_isSome hmem
  rw [hpk, hget] at this
  simp at this

theorem dropExpired_mem {ttl now : Nat} {st : DBState} {k : Int} {t : Nat}
    (hnds : NoDupKeys st.settingsBuffer) (hndl : NoDupKeys st.lastAccess)
    (hget : alGet st.lastAccess k = some t) :
    alMem (dropExpired ttl now st).settingsBuffer k
      = (alMem st.settingsBuffer k && !decide (ttl < now - t)) := by
  unfold alMem dropExpired
  rw [foldPopBoth_settings_get _ _ _ hnds]
  by_cases hin : k ∈ expiredSettings ttl now st
  · rcases (mem_expiredSettings_iff hndl hget).mp hin with ⟨h1, h2⟩
    unfold alMem at h2
    simp [hin, h2, h1]
  · simp only [hin, if_neg, not_false_eq_true]
    cases hmem : (alGet st.settingsBuffer k).isSome
    · simp [hmem]
    · have hage : ¬ (ttl < now - t) := by
        intro hage
        exact hin ((mem_expiredSettings_iff hndl hget).mpr ⟨hage, by unfold alMem; exact hmem⟩)
      simp [hage]

theorem dropExpired_keysEq {ttl now : Nat} {st : DBState}
    (hnds : NoDupKeys st.settingsBuffer) (hndl : NoDupKeys st.lastAccess)
    (hkeys : KeysEq st) : KeysEq (dropExpired ttl now st) := by
  intro k
  unfold alMem dropExpired
  rw [foldPopBoth_settings_get _ _ _ hnds, foldPopBoth_lastAccess_get _ _ _ hndl]
  by_cases hin : k ∈ expiredSettings ttl now st
  · simp [hin]
  · simp only [hin, if_neg, not_false_eq_true]
    exact hkeys k

theorem alMem_head (p : κ × α) (rest : List (κ × α)) [BEq κ] [LawfulBEq κ] :
    alMem (p :: rest) p.1 = true := by
  unfold alMem
  rw [alGet]
  simp

theorem trimLoop_users (m : Nat) (fuel : Nat) (st : DBState) :
    (trimLoop m fuel st).usersBuffer = st.usersBuffer := by
  induction fuel generalizing st with
  | zero => rfl
  | succ f ih =>
    rw [trimLoop]
    by_cases h : m < st.settingsBuffer.length
    · simp only [h, if_pos]
      cases hmin : argminTS st.lastAccess with
      | none => rfl
      | some p =>
        cases p with
        | mk oldest ts =>
          by_cases hmem : alMem st.settingsBuffer oldest
          · simp [hmem, ih]
          · simp [hmem]
    · simp [h]

theorem trimLoop_length {m : Nat} (fuel : Nat) (st : DBState)
    (hnds : NoDupKeys st.settingsBuffer) (hndl : NoDupKeys st.lastAccess)
    (hkeys : KeysEq st) (hfuel : st.settingsBuffer.length ≤ fuel + m) :
    (trimLoop m fuel st).settingsBuffer.length ≤ m := by
  induction fuel generalizing st with
  | zero => simpa using hfuel
  | succ f ih =>
    rw [trimLoop]
    by_cases h : m < st.settingsBuffer.length
    · simp only [h, if_pos]
      -- the settings buffer is non-empty, hence so is `_last_access`
      have hne : st.settingsBuffer ≠ [] := by
        intro hnil
        rw [hnil] at h
        simp at h
      obtain ⟨⟨kk, vv⟩, hp⟩ := List.exists_mem_of_ne_nil st.settingsBuffer hne
      have hheadmem : alMem st.settingsBuffer kk = true := by
        unfold alMem
        exact mem_alGet_isSome hp
      have hlamem : alMem st.lastAccess kk = true := by
        rw [hkeys]; exact hheadmem
      have hla_ne : st.lastAccess ≠ [] := by
        intro hnil
        unfold alMem at hlamem
        rw [hnil] at hlamem
        simp only [alGet] at hlamem
        simp at hlamem
      cases hmin : argminTS st.lastAccess with
      | none =>
        exfalso
        have := argminTS_isSome hla_ne
        rw [hmin] at this
        simp at this
      | some q =>
        cases q with
        | mk oldest ts =>
          have hqmem : (oldest, ts) ∈ st.lastAccess := argminTS_mem hmin
          have holdla : alMem st.lastAccess oldest = true := by
            unfold alMem
            exact mem_alGet_isSome hqmem
          have holdset : alMem st.settingsBuffer oldest = true := by
            rw [← hkeys]; exact holdla
          simp only [holdset, if_pos]
          apply ih
          · exact nodup_alPop hnds
          · exact nodup_alPop hndl
          · intro k
            by_cases hko : k = oldest
            · subst hko
              unfold alMem
              rw [alGet_alPop_self hnds, alGet_alPop_self hndl]
              rfl
            · unfold alMem
              rw [alGet_alPop_ne hko, alGet_alPop_ne hko]
              exact hkeys k
          · have := alPop_length_of_mem holdset
            simp only []
            omega
    · simp only [h, if_neg, not_false_eq_true]
      omega


/-! ### A heap model for `copy.deepcopy` on read

`get_settings` (line 303) and `get_user` with `need_copy=True` (line 399)
return `copy.deepcopy` of the cache entry.  To state what that buys the
caller — that mutating the returned object cannot change the cached
document — Python's object graph is modelled explicitly: a heap is a
list of nodes addressed by index, a node is an immutable scalar, a list
of child addresses, or a dict of child addresses, and allocation appends.
`copy.deepcopy` rebuilds the whole graph out of freshly allocated nodes
(it would preserve internal sharing via its memo dict, which a rebuilt
tree only refines: no address reachable from the copy is old). -/

inductive HNode where
  | leaf : Val → HNode
  | harr : List Nat → HNode
  | hobj : List (String × Nat) → HNode
deriving Repr

abbrev Heap := List HNode

/-- Addresses stored inside a node. -/
def childAddrs : HNode → List Nat
  | .leaf _ => []
  | .harr cs => cs
  | .hobj fs => fs.map (fun p => p.2)

/-- In-place mutation of the object at address `a` (a Python statement
like `obj["x"] = v` or `lst.append(v)` replaces the node's content). -/
def setNode (H : Heap) (a : Nat) (n : HNode) : Heap :=
  H.set a n

mutual

/-- Read the document value rooted at address `a` (fuelled; documents are
finite trees). -/
def readT : Nat → Heap → Nat → Option Val
  | 0, _, _ => none
  | fuel + 1, H, a =>
    match H[a]? with
    | none => none
    | some (.leaf v) => some v
    | some (.harr cs) => (readTs fuel H cs).map Val.vList
    | some (.hobj fs) => (readTsF fuel H fs).map Val.vDict

def readTs : Nat → Heap → List Nat → Option (List Val)
  | _, _, [] => some []
  | fuel, H, c :: cs => do
    let v ← readT fuel H c
    let vs ← readTs fuel H cs
    pure (v :: vs)

def readTsF : Nat → Heap → List (String × Nat) → Option (List (String × Val))
  | _, _, [] => some []
  | fuel, H, (s, c) :: fs => do
    let v ← readT fuel H c
    let vs ← readTsF fuel H fs
    pure ((s, v) :: vs)

end

mutual

/-- `copy.deepcopy`: rebuild the graph rooted at `a`, allocating every
node of the copy at a fresh address at the end of the heap and returning
the copy's root address. -/
def pyDeepcopy : Nat → Heap → Nat → Option (Heap × Nat)
  | 0, _, _ => none
  | fuel + 1, H, a =>
    match H[a]? with
    | none => none
    | some (.leaf v) => some (H ++ [.leaf v], H.length)
    | some (.harr cs) => do
      let (H₁, cs') ← pyDeepcopyList fuel H cs
      pure (H₁ ++ [.harr cs'], H₁.length)
    | some (.hobj fs) => do
      let (H₁, fs') ← pyDeepcopyFields fuel H fs
      pure (H₁ ++ [.hobj fs'], H₁.length)

def pyDeepcopyList : Nat → Heap → List Nat → Option (Heap × List Nat)
  | _, H, [] => some (H, [])
  | fuel, H, c :: cs => do
    let (H₁, c') ← pyDeepcopy fuel H c
    let (H₂, cs') ← pyDeepcopyList fuel H₁ cs
    pure (H₂, c' :: cs')

def pyDeepcopyFields : Nat → Heap → List (String × Nat) → Option (Heap × List (String × Nat))
  | _, H, [] => some (H, [])
  | fuel, H, (s, c) :: fs => do
    let (H₁, c') ← pyDeepcopy fuel H c
    let (H₂, fs') ← pyDeepcopyFields fuel H₁ fs
    pure (H₂, (s, c') :: fs')

end

/-- Every address stored in a node of `H` below index `n` is itself
below `n` (the original object graph is self-contained). -/
def ClosedBelow (H : Heap) (n : Nat) : Prop :=
  ∀ i node, i < n → H[i]? = some node → ∀ c ∈ childAddrs node, c < n

/-- Every node of `H` at index `n` or above points only at addresses in
`[n, H.length)` (the copy region is self-contained and never points back
into the original region). -/
def RegionClosed (n : Nat) (H : Heap) : Prop :=
  ∀ i node, n ≤ i → H[i]? = some node → ∀ c ∈ childAddrs node, n ≤ c ∧ c < H.length

theorem regionClosed_self (H : Heap) : RegionClosed H.length H := by
  intro i node hi hget
  exfalso
  rw [List.getElem?_eq_none (by omega)] at hget
  exact Option.noConfusion hget

theorem regionClosed_concat {n : Nat} {H : Heap} (node : HNode)
    (h : RegionClosed n H) (hn : n ≤ H.length)
    (hnode : ∀ c ∈ childAddrs node, n ≤ c ∧ c < H.length) :
    RegionClosed n (H ++ [node]) := by
  intro i nd hi hget
  intro c hc
  by_cases hlt : i < H.length
  · rw [List.getElem?_append_left hlt] at hget
    have := h i nd hi hget c hc
    refine ⟨this.1, ?_⟩
    simp
    omega
  · by_cases heq : i = H.length
    · subst heq
      rw [List.getElem?_concat_length] at hget
      have hnd : nd = node := by injection hget with h'; exact h'.symm
      subst hnd
      have := hnode c hc
      refine ⟨this.1, ?_⟩
      simp
      omega
    · exfalso
      rw [List.getElem?_eq_none (by simp; omega)] at hget
      exact Option.noConfusion hget

/-- `ClosedBelow` restricted to a prefix transfers along an append. -/
theorem closedBelow_append {H ext : Heap} (n : Nat)
    (hcl : ClosedBelow (H ++ ext) n) (hn : n ≤ H.length) : ClosedBelow H n := by
  intro i node hi hget c hc
  exact hcl i node hi (by rw [List.getElem?_append_left (by omega)]; exact hget) c hc

theorem readTs_agree_of {fuel n : Nat} {H₁ H₂ : Heap}
    (h : ∀ a, a < n → readT fuel H₁ a = readT fuel H₂ a) :
    ∀ cs, (∀ c ∈ cs, c < n) → readTs fuel H₁ cs = readTs fuel H₂ cs := by
  intro cs
  induction cs with
  | nil => intro _; simp only [readTs]
  | cons c rest ih =>
    intro hcs
    simp only [readTs]
    rw [h c (hcs c (by simp))]
    rw [ih (fun x hx => hcs x (by simp [hx]))]

theorem readTsF_agree_of {fuel n : Nat} {H₁ H₂ : Heap}
    (h : ∀ a, a < n → readT fuel H₁ a = readT fuel H₂ a) :
    ∀ fs : List (String × Nat), (∀ p ∈ fs, p.2 < n) →
      readTsF fuel H₁ fs = readTsF fuel H₂ fs := by
  intro fs
  induction fs with
  | nil => intro _; simp only [readTsF]
  | cons p rest ih =>
    intro hfs
    cases p with
    | mk s c =>
      simp only [readTsF]
      rw [h c (hfs (s, c) (by simp))]
      rw [ih (fun x hx => hfs x (by simp [hx]))]

/-- Reads below a closed region only depend on that region: two heaps
agreeing below `n` read equally at addresses below `n`. -/
theorem readT_agree {n : Nat} {H₁ H₂ : Heap}
    (hcl : ClosedBelow H₁ n)
    (hag : ∀ i, i < n → H₁[i]? = H₂[i]?) :
    ∀ fuel a, a < n → readT fuel H₁ a = readT fuel H₂ a := by
  intro fuel
  induction fuel with
  | zero => intro a _; simp only [readT]
  | succ f ih =>
    intro a ha
    simp only [readT]
    rw [← hag a ha]
    cases hnode : H₁[a]? with
    | none => rfl
    | some node =>
      cases node with
      | leaf v => rfl
      | harr cs =>
        have hch := hcl a _ ha hnode
        simp only [childAddrs] at hch
        dsimp only
        rw [readTs_agree_of ih cs hch]
      | hobj fs =>
        have hch := hcl a _ ha hnode
        simp only [childAddrs] at hch
        dsimp only
        rw [readTsF_agree_of ih fs (fun p hp => hch p.2 (List.mem_map_of_mem _ hp))]

theorem pyDeepcopyList_spec_of {fuel n : Nat}
    (hone : ∀ H a H' a', n ≤ H.length → RegionClosed n H →
      pyDeepcopy fuel H a = some (H', a') →
      (∃ ext, H' = H ++ ext) ∧ H.length ≤ a' ∧ a' < H'.length ∧ RegionClosed n H') :
    ∀ cs H H₁ cs', n ≤ H.length → RegionClosed n H →
      pyDeepcopyList fuel H cs = some (H₁, cs') →
      (∃ ext, H₁ = H ++ ext) ∧ RegionClosed n H₁ ∧
        (∀ c' ∈ cs', n ≤ c' ∧ c' < H₁.length) := by
  intro cs
  induction cs with
  | nil =>
    intro H H₁ cs' hn hrc hcopy
    simp only [pyDeepcopyList] at hcopy
    injection hcopy with h
    injection h with h1 h2
    subst h1
    subst h2
    exact ⟨⟨[], by simp⟩, hrc, by simp⟩
  | cons c rest ih =>
    intro H H₁ cs' hn hrc hcopy
    simp only [pyDeepcopyList, Option.bind_eq_bind, Option.bind_eq_some] at hcopy
    obtain ⟨⟨Ha, ca⟩, hcopy1, ⟨⟨Hb, rb⟩, hcopy2, hres⟩⟩ := hcopy
    injection hres with h
    injection h with h1 h2
    subst h1
    subst h2
    obtain ⟨⟨ext1, hext1⟩, hca1, hca2, hrc1⟩ := hone H c Ha ca hn hrc hcopy1
    have hlen1 : H.length ≤ Ha.length := by rw [hext1]; simp
    obtain ⟨⟨ext2, hext2⟩, hrc2, hrest⟩ :=
      ih Ha Hb rb (by omega) hrc1 hcopy2
    have hlen2 : Ha.length ≤ Hb.length := by rw [hext2]; simp
    refine ⟨⟨ext1 ++ ext2, by rw [hext2, hext1]; simp⟩, hrc2, ?_⟩
    intro c' hc'
    rcases List.mem_cons.mp hc' with h1 | h2
    · subst h1
      constructor
      · omega
      · have : Hb.length = (Hb, rb).1.length := rfl
        omega
    · exact hrest c' h2

theorem pyDeepcopyFields_spec_of {fuel n : Nat}
    (hone : ∀ H a H' a', n ≤ H.length → RegionClosed n H →
      pyDeepcopy fuel H a = some (H', a') →
      (∃ ext, H' = H ++ ext) ∧ H.length ≤ a' ∧ a' < H'.length ∧ RegionClosed n H') :
    ∀ fs H H₁ fs', n ≤ H.length → RegionClosed n H →
      pyDeepcopyFields fuel H fs = some (H₁, fs') →
      (∃ ext, H₁ = H ++ ext) ∧ RegionClosed n H₁ ∧
        (∀ p ∈ fs', n ≤ p.2 ∧ p.2 < H₁.length) := by
  intro fs
  induction fs with
  | nil =>
    intro H H₁ fs' hn hrc hcopy
    simp only [pyDeepcopyFields] at hcopy
    injection hcopy with h
    injection h with h1 h2
    subst h1
    subst h2
    exact ⟨⟨[], by simp⟩, hrc, by simp⟩
  | cons p rest ih =>
    intro H H₁ fs' hn hrc hcopy
    cases p with
    | mk s c =>
      simp only [pyDeepcopyFields, Option.bind_eq_bind, Option.bind_eq_some] at hcopy
      obtain ⟨⟨Ha, ca⟩, hcopy1, ⟨⟨Hb, rb⟩, hcopy2, hres⟩⟩ := hcopy
      injection hres with h
      injection h with h1 h2
      subst h1
      subst h2
      obtain ⟨⟨ext1, hext1⟩, hca1, hca2, hrc1⟩ := hone H c Ha ca hn hrc hcopy1
      have hlen1 : H.length ≤ Ha.length := by rw [hext1]; simp
      obtain ⟨⟨ext2, hext2⟩, hrc2, hrest⟩ :=
        ih Ha Hb rb (by omega) hrc1 hcopy2
      have hlen2 : Ha.length ≤ Hb.length := by rw [hext2]; simp
      refine ⟨⟨ext1 ++ ext2, by rw [hext2, hext1]; simp⟩, hrc2, ?_⟩
      intro p' hp'
      rcases List.mem_cons.mp hp' with h1 | h2
      · subst h1
        have : Hb.length = (Hb, rb).1.length := rfl
        constructor
        · simp
          omega
        · simp
          omega
      · exact hrest p' h2

/-- The copy produced by `pyDeepcopy` lives entirely in the freshly
allocated region: the heap only grows, the returned root is a fresh
address, and the grown heap keeps the copy region self-contained. -/
theorem pyDeepcopy_spec :
    ∀ fuel n H a H' a', n ≤ H.length → RegionClosed n H →
      pyDeepcopy fuel H a = some (H', a') →
      (∃ ext, H' = H ++ ext) ∧ H.length ≤ a' ∧ a' < H'.length ∧ RegionClosed n H' := by
  intro fuel
  induction fuel with
  | zero =>
    intro n H a H' a' hn hrc hcopy
    simp only [pyDeepcopy] at hcopy
    exact Option.noConfusion hcopy
  | succ f ih =>
    intro n H a H' a' hn hrc hcopy
    rw [pyDeepcopy] at hcopy
    cases hnode : H[a]? with
    | none => rw [hnode] at hcopy; simp at hcopy
    | some node =>
      rw [hnode] at hcopy
      cases node with
      | leaf v =>
        simp only [] at hcopy
        injection hcopy with h
        injection h with h1 h2
        subst h1
        subst h2
        refine ⟨⟨[.leaf v], rfl⟩, le_refl _, by simp, ?_⟩
        exact regionClosed_concat _ hrc hn (by simp [childAddrs])
      | harr cs =>
        simp only [Option.bind_eq_bind, Option.bind_eq_some] at hcopy
        obtain ⟨⟨Ha, cs'⟩, hcopy1, hres⟩ := hcopy
        injection hres with h
        injection h with h1 h2
        subst h1
        subst h2
        obtain ⟨⟨ext1, hext1⟩, hrc1, hcs'⟩ :=
          pyDeepcopyList_spec_of (ih n) cs H Ha cs' hn hrc hcopy1
        have hlen1 : H.length ≤ Ha.length := by rw [hext1]; simp
        have hproj : Ha.length = (Ha, cs').1.length := rfl
        refine ⟨⟨ext1 ++ [.harr cs'], by rw [hext1]; simp⟩, by omega, by simp, ?_⟩
        exact regionClosed_concat _ hrc1 (by omega)
          (by simp only [childAddrs]; exact hcs')
      | hobj fs =>
        simp only [Option.bind_eq_bind, Option.bind_eq_some] at hcopy
        obtain ⟨⟨Ha, fs'⟩, hcopy1, hres⟩ := hcopy
        injection hres with h
        injection h with h1 h2
        subst h1
        subst h2
        obtain ⟨⟨ext1, hext1⟩, hrc1, hfs'⟩ :=
          pyDeepcopyFields_spec_of (ih n) fs H Ha fs' hn hrc hcopy1
        have hlen1 : H.length ≤ Ha.length := by rw [hext1]; simp
        have hproj : Ha.length = (Ha, fs').1.length := rfl
        refine ⟨⟨ext1 ++ [.hobj fs'], by rw [hext1]; simp⟩, by omega, by simp, ?_⟩
        apply regionClosed_concat _ hrc1 (by omega)
        intro c hc
        simp only [childAddrs, List.mem_map] at hc
        obtain ⟨p, hp, hpc⟩ := hc
        have := hfs' p hp
        omega

/-- A heap whose original region is closed stays fully closed after a
deep copy appends a self-contained region. -/
theorem closedBelow_copy_grow {H H' : Heap}
    (hcl : ClosedBelow H H.length) (hext : ∃ ext, H' = H ++ ext)
    (hrc : RegionClosed H.length H') : ClosedBelow H' H'.length := by
  obtain ⟨ext, rfl⟩ := hext
  intro i node hi hget c hc
  by_cases hlt : i < H.length
  · rw [List.getElem?_append_left hlt] at hget
    have := hcl i node hlt hget c hc
    simp
    omega
  · have := hrc i node (by omega) hget c hc
    exact this.2

theorem readTs_copyList_of {g : Nat}
    (hone : ∀ fuel H a H' a', ClosedBelow H H.length →
      pyDeepcopy fuel H a = some (H', a') → readT g H' a' = readT g H a) :
    ∀ fuel cs H H₁ cs', ClosedBelow H H.length → (∀ c ∈ cs, c < H.length) →
      pyDeepcopyList fuel H cs = some (H₁, cs') →
      readTs g H₁ cs' = readTs g H cs := by
  intro fuel cs
  induction cs with
  | nil =>
    intro H H₁ cs' hcl hbound hcopy
    simp only [pyDeepcopyList] at hcopy
    injection hcopy with h
    injection h with h1 h2
    subst h1
    subst h2
    simp only [readTs]
  | cons c rest ih =>
    intro H H₁ cs' hcl hbound hcopy
    simp only [pyDeepcopyList, Option.bind_eq_bind, Option.bind_eq_some] at hcopy
    obtain ⟨⟨Ha, ca⟩, hcopy1, ⟨⟨Hb, rb⟩, hcopy2, hres⟩⟩ := hcopy
    injection hres with h
    injection h with h1 h2
    subst h1
    subst h2
    obtain ⟨hext1, hca1, hca2, hrc1⟩ :=
      pyDeepcopy_spec fuel H.length H c Ha ca (le_refl _) (regionClosed_self H) hcopy1
    have hcl1 : ClosedBelow Ha Ha.length := closedBelow_copy_grow hcl hext1 hrc1
    have hlen1 : H.length ≤ Ha.length := by
      obtain ⟨ext, rfl⟩ := hext1
      simp
    obtain ⟨hext2, hrc2, hrb⟩ :=
      pyDeepcopyList_spec_of (fun Hx ax Hx' ax' hn hrc hc =>
          pyDeepcopy_spec fuel Ha.length Hx ax Hx' ax' hn hrc hc)
        rest Ha Hb rb (le_refl _) (regionClosed_self Ha) hcopy2
    have hag2 : ∀ i, i < Ha.length → Ha[i]? = Hb[i]? := by
      obtain ⟨ext, rfl⟩ := hext2
      intro i hi
      rw [List.getElem?_append_left hi]
    have hagH : ∀ i, i < H.length → H[i]? = Ha[i]? := by
      obtain ⟨ext, rfl⟩ := hext1
      intro i hi
      rw [List.getElem?_append_left hi]
    simp only [readTs]
    have e1 : readT g Hb ca = readT g H c := by
      have e1a : readT g Ha ca = readT g Hb ca :=
        readT_agree hcl1 hag2 g ca hca2
      have e1b : readT g Ha ca = readT g H c := hone fuel H c Ha ca hcl hcopy1
      rw [← e1a, e1b]
    have e2 : readTs g Hb rb = readTs g H rest := by
      have e2a : readTs g Hb rb = readTs g Ha rest := by
        apply ih Ha Hb rb hcl1
        · intro x hx
          exact lt_of_lt_of_le (hbound x (by simp [hx])) hlen1
        · exact hcopy2
      have e2b : readTs g H rest = readTs g Ha rest := by
        apply readTs_agree_of (readT_agree hcl hagH g) rest
        intro x hx
        exact hbound x (by simp [hx])
      rw [e2a, ← e2b]
    rw [e1, e2]

theorem readTsF_copyFields_of {g : Nat}
    (hone : ∀ fuel H a H' a', ClosedBelow H H.length →
      pyDeepcopy fuel H a = some (H', a') → readT g H' a' = readT g H a) :
    ∀ fuel fs H H₁ fs', ClosedBelow H H.length → (∀ p ∈ fs, p.2 < H.length) →
      pyDeepcopyFields fuel H fs = some (H₁, fs') →
      readTsF g H₁ fs' = readTsF g H fs := by
  intro fuel fs
  induction fs with
  | nil =>
    intro H H₁ fs' hcl hbound hcopy
    simp only [pyDeepcopyFields] at hcopy
    injection hcopy with h
    injection h with h1 h2
    subst h1
    subst h2
    simp only [readTsF]
  | cons p rest ih =>
    intro H H₁ fs' hcl hbound hcopy
    cases p with
    | mk s c =>
      simp only [pyDeepcopyFields, Option.bind_eq_bind, Option.bind_eq_some] at hcopy
      obtain ⟨⟨Ha, ca⟩, hcopy1, ⟨⟨Hb, rb⟩, hcopy2, hres⟩⟩ := hcopy
      injection hres with h
      injection h with h1 h2
      subst h1
      subst h2
      obtain ⟨hext1, hca1, hca2, hrc1⟩ :=
        pyDeepcopy_spec fuel H.length H c Ha ca (le_refl _) (regionClosed_self H) hcopy1
      have hcl1 : ClosedBelow Ha Ha.length := closedBelow_copy_grow hcl hext1 hrc1
      have hlen1 : H.length ≤ Ha.length := by
        obtain ⟨ext, rfl⟩ := hext1
        simp
      obtain ⟨hext2, hrc2, hrb⟩ :=
        pyDeepcopyFields_spec_of (fun Hx ax Hx' ax' hn hrc hc =>
            pyDeepcopy_spec fuel Ha.length Hx ax Hx' ax' hn hrc hc)
          rest Ha Hb rb (le_refl _) (regionClosed_self Ha) hcopy2
      have hag2 : ∀ i, i < Ha.length → Ha[i]? = Hb[i]? := by
        obtain ⟨ext, rfl⟩ := hext2
        intro i hi
        rw [List.getElem?_append_left hi]
      have hagH : ∀ i, i < H.length → H[i]? = Ha[i]? := by
        obtain ⟨ext, rfl⟩ := hext1
        intro i hi
        rw [List.getElem?_append_left hi]
      simp only [readTsF]
      have e1 : readT g Hb ca = readT g H c := by
        have e1a : readT g Ha ca = readT g Hb ca :=
          readT_agree hcl1 hag2 g ca hca2
        have e1b : readT g Ha ca = readT g H c := hone fuel H c Ha ca hcl hcopy1
        rw [← e1a, e1b]
      have e2 : readTsF g Hb rb = readTsF g H rest := by
        have e2a : readTsF g Hb rb = readTsF g Ha rest := by
          apply ih Ha Hb rb hcl1
          · intro x hx
            exact lt_of_lt_of_le (hbound x (by simp [hx])) hlen1
          · exact hcopy2
        have e2b : readTsF g H rest = readTsF g Ha rest := by
          apply readTsF_agree_of (readT_agree hcl hagH g) rest
          intro x hx
          exact hbound x (by simp [hx])
        rw [e2a, ← e2b]
      rw [e1, e2]

/-- Reading the copy yields the same document value as reading the
original cache entry. -/
theorem readT_copy :
    ∀ g fuel H a H' a', ClosedBelow H H.length →
      pyDeepcopy fuel H a = some (H', a') → readT g H' a' = readT g H a := by
  intro g
  induction g with
  | zero =>
    intro fuel H a H' a' hcl hcopy
    simp only [readT]
  | succ g ihg =>
    intro fuel H a H' a' hcl hcopy
    cases fuel with
    | zero =>
      simp only [pyDeepcopy] at hcopy
      exact Option.noConfusion hcopy
    | succ f =>
      rw [pyDeepcopy] at hcopy
      cases hnode : H[a]? with
      | none => rw [hnode] at hcopy; simp at hcopy
      | some node =>
        rw [hnode] at hcopy
        have halt : a < H.length := by
          by_contra hcon
          rw [List.getElem?_eq_none (by omega)] at hnode
          exact Option.noConfusion hnode
        cases node with
        | leaf v =>
          simp only [] at hcopy
          injection hcopy with h
          injection h with h1 h2
          subst h1
          subst h2
          simp only [readT, List.getElem?_concat_length, hnode]
        | harr cs =>
          simp only [Option.bind_eq_bind, Option.bind_eq_some] at hcopy
          obtain ⟨⟨Ha, cs'⟩, hcopy1, hres⟩ := hcopy
          injection hres with h
          injection h with h1 h2
          subst h1
          subst h2
          have hbound : ∀ c ∈ cs, c < H.length := by
            have := hcl a _ halt hnode
            simpa [childAddrs] using this
          obtain ⟨hext1, hrc1, hcs'⟩ :=
            pyDeepcopyList_spec_of (fun Hx ax Hx' ax' hn hrc hc =>
                pyDeepcopy_spec f H.length Hx ax Hx' ax' hn hrc hc)
              cs H Ha cs' (le_refl _) (regionClosed_self H) hcopy1
          have hcl1 : ClosedBelow Ha Ha.length := closedBelow_copy_grow hcl hext1 hrc1
          have hread_list : readTs g Ha cs' = readTs g H cs :=
            readTs_copyList_of ihg f cs H Ha cs' hcl hbound hcopy1
          have hag : ∀ i, i < Ha.length → Ha[i]? = (Ha ++ [HNode.harr cs'])[i]? := by
            intro i hi
            rw [List.getElem?_append_left hi]
          have hframe : readTs g (Ha ++ [HNode.harr cs']) cs' = readTs g Ha cs' := by
            apply Eq.symm
            apply readTs_agree_of (readT_agree hcl1 hag g) cs'
            intro x hx
            exact (hcs' x hx).2
          simp only [readT, List.getElem?_concat_length, hnode]
          rw [hframe, hread_list]
        | hobj fs =>
          simp only [Option.bind_eq_bind, Option.bind_eq_some] at hcopy
          obtain ⟨⟨Ha, fs'⟩, hcopy1, hres⟩ := hcopy
          injection hres with h
          injection h with h1 h2
          subst h1
          subst h2
          have hbound : ∀ p ∈ fs, p.2 < H.length := by
            have := hcl a _ halt hnode
            intro p hp
            exact this p.2 (by simp only [childAddrs]; exact List.mem_map_of_mem _ hp)
          obtain ⟨hext1, hrc1, hfs'⟩ :=
            pyDeepcopyFields_spec_of (fun Hx ax Hx' ax' hn hrc hc =>
                pyDeepcopy_spec f H.length Hx ax Hx' ax' hn hrc hc)
              fs H Ha fs' (le_refl _) (regionClosed_self H) hcopy1
          have hcl1 : ClosedBelow Ha Ha.length := closedBelow_copy_grow hcl hext1 hrc1
          have hread_fields : readTsF g Ha fs' = readTsF g H fs :=
            readTsF_copyFields_of ihg f fs H Ha fs' hcl hbound hcopy1
          have hag : ∀ i, i < Ha.length → Ha[i]? = (Ha ++ [HNode.hobj fs'])[i]? := by
            intro i hi
            rw [List.getElem?_append_left hi]
          have hframe : readTsF g (Ha ++ [HNode.hobj fs']) fs' = readTsF g Ha fs' := by
            apply Eq.symm
            apply readTsF_agree_of (readT_agree hcl1 hag g) fs'
            intro x hx
            exact (hfs' x hx).2
          simp only [readT, List.getElem?_concat_length, hnode]
          rw [hframe, hread_fields]

/-! ### Claim theorems -/

/-- C1: the claim says a successful `update` applies the operations to
both the cached document and the backend for *both* collections.  The
users collection behaves as claimed, but `update_settings` hands
`_update_db` the deep copy returned by `get_settings` (line 332), so the
cached settings document is left unchanged by a successful update: with
guild 7 cached as `{"_id": 7}`, a successful
`update_settings(7, {"$set": {"volume": 5}})` reports success, the update
engine maps the old document to `{"_id": 7, "volume": 5}`, yet the
settings buffer still holds the stale `{"_id": 7}` — while the analogous
`update_user` call does write the mutated document into the users
buffer. -/
theorem update_settings_leaves_cache_stale :
    (updateSettings 10 7 [("$set", [("volume", .vInt 5)])] false
        ⟨[(7, [("_id", .vInt 7)])], [], [(7, 0)]⟩ ⟨[], []⟩ (.ok 1)).1 = .ok true
    ∧ (updateSettings 10 7 [("$set", [("volume", .vInt 5)])] false
        ⟨[(7, [("_id", .vInt 7)])], [], [(7, 0)]⟩ ⟨[], []⟩ (.ok 1)).2.1.settingsBuffer
      = [(7, [("_id", .vInt 7)])]
    ∧ updateDbPure [("_id", .vInt 7)] [("$set", [("volume", .vInt 5)])]
      = .ok [("_id", .vInt 7), ("volume", .vInt 5)]
    ∧ (updateUser 10 7 [("$set", [("volume", .vInt 5)])] false
        ⟨[], [(7, [("_id", .vInt 7)])], [(7, 0)]⟩ ⟨[], []⟩ (.ok 1)).1 = .ok true
    ∧ (updateUser 10 7 [("$set", [("volume", .vInt 5)])] false
        ⟨[], [(7, [("_id", .vInt 7)])], [(7, 0)]⟩ ⟨[], []⟩ (.ok 1)).2.1.usersBuffer
      = [(7, [("_id", .vInt 7), ("volume", .vInt 5)])] :=
  ⟨rfl, rfl, rfl, rfl, rfl⟩

/-- MongoDB-compatible `$slice` semantics as the spec demands them
(refinement reference, following the spec's words): a non-negative `n`
keeps the first `n` elements, a negative `n` keeps the last `|n|`. -/
def mongoSliceSpec (n : Int) (l : List Val) : List Val :=
  if 0 ≤ n then l.take n.toNat
  else l.drop (l.length - (-n).toNat)

/-- C3: the claim says `$push` with `{"$each": items, "$slice": n}` keeps
the first `n` elements for non-negative `n` (MongoDB semantics).  The
cache code instead runs `arr[:] = arr[n:]` (line 240), which *drops* the
first `n` elements: pushing five items with `$slice: 3` onto an empty
field leaves `[4, 5]` in the cache, whereas the claimed semantics keep
`[1, 2, 3]` (the negative case agrees with the claim). -/
theorem push_each_slice_drops_head :
    updateDbPure [("h", .vList [])]
      [("$push", [("h", .vDict [("$each", .vList [.vInt 1, .vInt 2, .vInt 3, .vInt 4, .vInt 5]),
                                 ("$slice", .vInt 3)])])]
      = .ok [("h", .vList [.vInt 4, .vInt 5])]
    ∧ mongoSliceSpec 3 [.vInt 1, .vInt 2, .vInt 3, .vInt 4, .vInt 5]
      = [.vInt 1, .vInt 2, .vInt 3]
    ∧ ([Val.vInt 4, Val.vInt 5] ≠ [Val.vInt 1, Val.vInt 2, Val.vInt 3])
    ∧ pySliceFrom (-3) [.vInt 1, .vInt 2, .vInt 3, .vInt 4, .vInt 5]
      = mongoSliceSpec (-3) [.vInt 1, .vInt 2, .vInt 3, .vInt 4, .vInt 5] :=
  ⟨rfl, rfl, by simp, rfl⟩

/-- C6: the claim says that for a key absent everywhere, `get` creates,
persists and returns the default document keyed by that primary key, and
a subsequent backend read by the key returns it.  The settings side is
fine, but `get_user` builds the default as
`{"_id": user_id, **copy.deepcopy(cls._user_base)}` (line 383), where
`_user_base`'s own `"_id": 0` entry overwrites the real user id: for the
fresh user 5 the created and persisted document carries `_id = 0`, and a
backend read by primary key 5 finds nothing (a read by 0 finds it). -/
theorem get_user_creates_default_with_id_zero :
    (getUser 100 5 none ⟨[], [], []⟩ ⟨[], []⟩).1
      = .ok (.vDict (mergeObj [("_id", .vInt 5)] userBase))
    ∧ alGet (mergeObj [("_id", .vInt 5)] userBase) "_id" = some (.vInt 0)
    ∧ (getUser 100 5 none ⟨[], [], []⟩ ⟨[], []⟩).2.2.users
      = [mergeObj [("_id", .vInt 5)] userBase]
    ∧ findOne (getUser 100 5 none ⟨[], [], []⟩ ⟨[], []⟩).2.2.users 5 = none
    ∧ findOne (getUser 100 5 none ⟨[], [], []⟩ ⟨[], []⟩).2.2.users 0
      = some (mergeObj [("_id", .vInt 5)] userBase)
    ∧ (alGet userBase "playlist").isSome = true
    ∧ (alGet userBase "history").isSome = true
    ∧ (alGet userBase "inbox").isSome = true
    ∧ (getSettings 100 5 false ⟨[], [], []⟩ ⟨[], []⟩).1 = .ok [("_id", .vInt 5)]
    ∧ findOne (getSettings 100 5 false ⟨[], [], []⟩ ⟨[], []⟩).2.2.settings 5
      = some [("_id", .vInt 5)] :=
  ⟨rfl, rfl, rfl, rfl, rfl, rfl, rfl, rfl, rfl, rfl⟩

/-- C10: `get_users_by_criteria` guards the backend limit with
`if limit:` (line 498), so a limit of `0` is falsy and means "no limit":
the call behaves exactly like a call without a limit and returns every
document matching the criteria after the skip, not an empty list. -/
theorem get_users_limit_zero_means_no_limit
    (now : Nat) (pred : Obj → Bool) (skip : Nat) (st : DBState) (bk : Backend) :
    getUsersByCriteria now pred (some 0) skip st bk
      = getUsersByCriteria now pred none skip st bk
    ∧ (getUsersByCriteria now pred (some 0) skip st bk).1
      = (bk.users.filter pred).drop skip := by
  constructor
  · unfold getUsersByCriteria
    simp
  · unfold getUsersByCriteria
    simp

/-- C4: with guild 1 cached as `{"_id": 1, "count": "abc"}`, the update
`{"$inc": {"count": 1}}` fails — but it surfaces to the caller as a
`ConnectionError` (the blanket `except` of `update_settings`/`update_user`
re-raises everything as `ConnectionError`, lines 349-350 and 445-446,
although their docstrings document `ValueError` for invalid update
data), and the key's cache entry is evicted rather than kept; the
outcome is the same whatever `update_one` would have answered (the
backend call is never reached), and the backend stays unchanged, so the
next read returns the untouched backend value.  The same holds on the
users collection. -/
theorem inc_non_numeric_connection_error_and_eviction :
    (∀ backendRes : Except String Nat,
      updateSettings 10 1 [("$inc", [("count", .vInt 1)])] false
        ⟨[(1, [("_id", .vInt 1), ("count", .vStr "abc")])], [], [(1, 0)]⟩
        ⟨[[("_id", .vInt 1), ("count", .vStr "abc")]], []⟩ backendRes
      = (.error (.connectionError
           "Failed to update settings: Update failed: Error updating count: Cannot increment non-numeric field: count"),
         ⟨[], [], [(1, 0)]⟩,
         ⟨[[("_id", .vInt 1), ("count", .vStr "abc")]], []⟩))
    ∧ (∀ backendRes : Except String Nat,
      updateUser 10 1 [("$inc", [("count", .vInt 1)])] false
        ⟨[], [(1, [("_id", .vInt 1), ("count", .vStr "abc")])], [(1, 0)]⟩
        ⟨[], [[("_id", .vInt 1), ("count", .vStr "abc")]]⟩ backendRes
      = (.error (.connectionError
           "Failed to update user: Update failed: Error updating count: Cannot increment non-numeric field: count"),
         ⟨[], [], [(1, 0)]⟩,
         ⟨[], [[("_id", .vInt 1), ("count", .vStr "abc")]]⟩)) :=
  ⟨fun _ => rfl, fun _ => rfl⟩

/-- C2 (counterexample): the claim says one sweep removes an entry *of
either collection* exactly when expired and then trims to at most the
maximum size.  Concretely, with users entry 9 expired since timestamp 0,
three fresh settings entries, `now = 1000`, TTL 300 and maximum size 2,
the sweep changes nothing at all: the expired users entry survives
(`cleanup_cache` only ever deletes from `_settings_buffer`, lines
157-173), and the settings buffer stays at 3 > 2 entries because the
LRU loop picks the users-owned id 9 as oldest and its
`del cls._settings_buffer[9]` raises a swallowed `KeyError`. -/
theorem cleanup_cache_ignores_users_cex :
    cleanupCacheWith 300 2 1000
        ⟨[(1, [("_id", .vInt 1)]), (2, [("_id", .vInt 2)]), (3, [("_id", .vInt 3)])],
         [(9, [("_id", .vInt 9)])],
         [(9, 0), (1, 800), (2, 850), (3, 900)]⟩
      = ⟨[(1, [("_id", .vInt 1)]), (2, [("_id", .vInt 2)]), (3, [("_id", .vInt 3)])],
         [(9, [("_id", .vInt 9)])],
         [(9, 0), (1, 800), (2, 850), (3, 900)]⟩
    ∧ 300 < 1000 - 0
    ∧ 2 < 3 :=
  ⟨rfl, by decide, by decide⟩

theorem alMem_keys [BEq κ] (l : List (κ × α)) (k : κ) :
    alMem l k = (l.map (fun p => p.1)).any (fun x => x == k) := by
  induction l with
  | nil => rfl
  | cons p rest ih =>
    unfold alMem alGet
    by_cases hb : p.1 == k
    · simp [hb]
    · simp only [hb]
      simp [hb] at ih ⊢
      unfold alMem at ih
      exact ih

theorem keysEq_of_same_keys (st : DBState)
    (h : st.lastAccess.map (fun p => p.1) = st.settingsBuffer.map (fun p => p.1)) :
    KeysEq st := by
  intro k
  rw [alMem_keys, alMem_keys, h]

/-- C2 (amended): restricted to states where the `_last_access` map holds
exactly the settings-cache keys — i.e. without the interference of the
users cache, which shares `_last_access` but is never swept — one
`cleanup_cache` run leaves the users buffer untouched, removes a settings
entry in its expiry phase exactly when `(now − last_access) > TTL`, then
(as the final conjunct records definitionally) runs the
least-recently-accessed trim loop, after which the settings buffer holds
at most `maxSize` entries. -/
theorem cleanup_cache_settings_only
    (ttl maxSize now : Nat) (st : DBState)
    (hnds : NoDupKeys st.settingsBuffer) (hndl : NoDupKeys st.lastAccess)
    (hkeys : KeysEq st) :
    (cleanupCacheWith ttl maxSize now st).usersBuffer = st.usersBuffer
    ∧ (∀ k t, alGet st.lastAccess k = some t →
        alMem (dropExpired ttl now st).settingsBuffer k
          = (alMem st.settingsBuffer k && !decide (ttl < now - t)))
    ∧ (cleanupCacheWith ttl maxSize now st).settingsBuffer.length ≤ maxSize
    ∧ cleanupCacheWith ttl maxSize now st
      = trimLoop maxSize (dropExpired ttl now st).settingsBuffer.length
          (dropExpired ttl now st) := by
  refine ⟨?_, ?_, ?_, rfl⟩
  · unfold cleanupCacheWith
    rw [trimLoop_users]
    unfold dropExpired
    exact foldPopBoth_users _ _
  · intro k t hget
    exact dropExpired_mem hnds hndl hget
  · unfold cleanupCacheWith
    apply trimLoop_length
    · unfold dropExpired
      exact foldPopBoth_nodup_settings _ _ hnds
    · unfold dropExpired
      exact foldPopBoth_nodup_lastAccess _ _ hndl
    · exact dropExpired_keysEq hnds hndl hkeys
    · omega

/-- C2 (witness): the amended sweep theorem at a concrete state — three
settings entries whose timestamps are 10, 750 and 800 at `now = 1000`
with TTL 300 and maximum size 2: the users buffer is untouched, entry 1
(age 990) is expired away while 2 and 3 (ages 250 and 200) stay, and the
final buffer is within the size bound. -/
theorem cleanup_cache_settings_only_witness :
    (cleanupCacheWith 300 2 1000
        ⟨[(1, [("_id", .vInt 1)]), (2, [("_id", .vInt 2)]), (3, [("_id", .vInt 3)])],
         [(8, [("_id", .vInt 8)])],
         [(1, 10), (2, 750), (3, 800)]⟩).usersBuffer
      = [(8, [("_id", .vInt 8)])]
    ∧ (∀ k t, alGet ([(1, 10), (2, 750), (3, 800)] : List (Int × Nat)) k = some t →
        alMem (dropExpired 300 1000
          ⟨[(1, [("_id", .vInt 1)]), (2, [("_id", .vInt 2)]), (3, [("_id", .vInt 3)])],
           [(8, [("_id", .vInt 8)])],
           [(1, 10), (2, 750), (3, 800)]⟩).settingsBuffer k
          = (alMem ([(1, [("_id", .vInt 1)]), (2, [("_id", .vInt 2)]), (3, [("_id", .vInt 3)])] : List (Int × Obj)) k
             && !decide (300 < 1000 - t)))
    ∧ (cleanupCacheWith 300 2 1000
        ⟨[(1, [("_id", .vInt 1)]), (2, [("_id", .vInt 2)]), (3, [("_id", .vInt 3)])],
         [(8, [("_id", .vInt 8)])],
         [(1, 10), (2, 750), (3, 800)]⟩).settingsBuffer.length ≤ 2
    ∧ cleanupCacheWith 300 2 1000
        ⟨[(1, [("_id", .vInt 1)]), (2, [("_id", .vInt 2)]), (3, [("_id", .vInt 3)])],
         [(8, [("_id", .vInt 8)])],
         [(1, 10), (2, 750), (3, 800)]⟩
      = trimLoop 2 (dropExpired 300 1000
          ⟨[(1, [("_id", .vInt 1)]), (2, [("_id", .vInt 2)]), (3, [("_id", .vInt 3)])],
           [(8, [("_id", .vInt 8)])],
           [(1, 10), (2, 750), (3, 800)]⟩).settingsBuffer.length
          (dropExpired 300 1000
            ⟨[(1, [("_id", .vInt 1)]), (2, [("_id", .vInt 2)]), (3, [("_id", .vInt 3)])],
             [(8, [("_id", .vInt 8)])],
             [(1, 10), (2, 750), (3, 800)]⟩) :=
  cleanup_cache_settings_only 300 2 1000 _
    (by unfold NoDupKeys; decide)
    (by unfold NoDupKeys; decide)
    (keysEq_of_same_keys _ (by decide))

/-- C5: when the backend `update_one` fails, `_update_db` evicts the
key's entry from both buffers (lines 263-265) and the wrapped failure
propagates as a `ConnectionError`; the evicted buffers no longer hold
the key, the backend collections are untouched, and the next `get` for
the key takes the miss path and returns the backend's document rather
than any cached data — on the settings path and on the users path
alike. -/
theorem update_backend_failure_evicts_and_reloads
    (now now2 : Nat) (k : Int) (ops opsU : Ops) (st : DBState) (bk : Backend)
    (emsg : String) (sdoc udoc newS newU dS dU : Obj)
    (hnds : NoDupKeys st.settingsBuffer) (hndu : NoDupKeys st.usersBuffer)
    (hsget : alGet st.settingsBuffer k = some sdoc)
    (huget : alGet st.usersBuffer k = some udoc)
    (hpureS : updateDbPure sdoc ops = .ok newS)
    (hpureU : updateDbPure udoc opsU = .ok newU)
    (hfindS : findOne bk.settings k = some dS)
    (hfindU : findOne bk.users k = some dU) :
    updateSettings now k ops false st bk (.error emsg)
      = (.error (.connectionError
           ("Failed to update settings: " ++ ("Update failed: " ++ emsg))),
         evictBoth k st, bk)
    ∧ updateUser now k opsU false st bk (.error emsg)
      = (.error (.connectionError
           ("Failed to update user: " ++ ("Update failed: " ++ emsg))),
         evictBoth k st, bk)
    ∧ alGet (evictBoth k st).settingsBuffer k = none
    ∧ alGet (evictBoth k st).usersBuffer k = none
    ∧ (getSettings now2 k false (evictBoth k st) bk).1 = .ok dS
    ∧ (getUser now2 k none (evictBoth k st) bk).1 = .ok (.vDict dU) := by
  have hmemS : alMem st.settingsBuffer k = true := by
    unfold alMem
    rw [hsget]
    rfl
  have hmemU : alMem st.usersBuffer k = true := by
    unfold alMem
    rw [huget]
    rfl
  have hpopS : alGet (evictBoth k st).settingsBuffer k = none :=
    alGet_alPop_self hnds
  have hpopU : alGet (evictBoth k st).usersBuffer k = none :=
    alGet_alPop_self hndu
  refine ⟨?_, ?_, hpopS, hpopU, ?_, ?_⟩
  · unfold updateSettings getSettings runUpdateDb
    simp [hmemS, hsget, hpureS]
  · unfold updateUser getUser runUpdateDb
    simp [hmemU, huget, hpureU]
  · unfold getSettings
    have : alMem (evictBoth k st).settingsBuffer k = false := by
      unfold alMem
      rw [hpopS]
      rfl
    simp [this, hfindS]
  · unfold getUser
    have : alMem (evictBoth k st).usersBuffer k = false := by
      unfold alMem
      rw [hpopU]
      rfl
    simp [this, hfindU]

/-- C5 (witness): the eviction-and-reload theorem at a concrete state —
guild/user 1 cached, a `$set` update whose backend call fails with
message "down", and a backend holding `{"_id": 1, "v": 9}` documents in
both collections that the next reads return. -/
theorem update_backend_failure_evicts_and_reloads_witness :
    updateSettings 10 1 [("$set", [("x", .vInt 1)])] false
        ⟨[(1, [("_id", .vInt 1)])], [(1, [("_id", .vInt 1)])], [(1, 0)]⟩
        ⟨[[("_id", .vInt 1), ("v", .vInt 9)]], [[("_id", .vInt 1), ("v", .vInt 9)]]⟩
        (.error "down")
      = (.error (.connectionError
           ("Failed to update settings: " ++ ("Update failed: " ++ "down"))),
         evictBoth 1 ⟨[(1, [("_id", .vInt 1)])], [(1, [("_id", .vInt 1)])], [(1, 0)]⟩,
         ⟨[[("_id", .vInt 1), ("v", .vInt 9)]], [[("_id", .vInt 1), ("v", .vInt 9)]]⟩)
    ∧ updateUser 10 1 [("$set", [("x", .vInt 1)])] false
        ⟨[(1, [("_id", .vInt 1)])], [(1, [("_id", .vInt 1)])], [(1, 0)]⟩
        ⟨[[("_id", .vInt 1), ("v", .vInt 9)]], [[("_id", .vInt 1), ("v", .vInt 9)]]⟩
        (.error "down")
      = (.error (.connectionError
           ("Failed to update user: " ++ ("Update failed: " ++ "down"))),
         evictBoth 1 ⟨[(1, [("_id", .vInt 1)])], [(1, [("_id", .vInt 1)])], [(1, 0)]⟩,
         ⟨[[("_id", .vInt 1), ("v", .vInt 9)]], [[("_id", .vInt 1), ("v", .vInt 9)]]⟩)
    ∧ alGet (evictBoth 1
        ⟨[(1, [("_id", .vInt 1)])], [(1, [("_id", .vInt 1)])], [(1, 0)]⟩).settingsBuffer 1 = none
    ∧ alGet (evictBoth 1
        ⟨[(1, [("_id", .vInt 1)])], [(1, [("_id", .vInt 1)])], [(1, 0)]⟩).usersBuffer 1 = none
    ∧ (getSettings 20 1 false
        (evictBoth 1 ⟨[(1, [("_id", .vInt 1)])], [(1, [("_id", .vInt 1)])], [(1, 0)]⟩)
        ⟨[[("_id", .vInt 1), ("v", .vInt 9)]], [[("_id", .vInt 1), ("v", .vInt 9)]]⟩).1
      = .ok [("_id", .vInt 1), ("v", .vInt 9)]
    ∧ (getUser 20 1 none
        (evictBoth 1 ⟨[(1, [("_id", .vInt 1)])], [(1, [("_id", .vInt 1)])], [(1, 0)]⟩)
        ⟨[[("_id", .vInt 1), ("v", .vInt 9)]], [[("_id", .vInt 1), ("v", .vInt 9)]]⟩).1
      = .ok (.vDict [("_id", .vInt 1), ("v", .vInt 9)]) :=
  update_backend_failure_evicts_and_reloads 10 20 1
    [("$set", [("x", .vInt 1)])] [("$set", [("x", .vInt 1)])]
    ⟨[(1, [("_id", .vInt 1)])], [(1, [("_id", .vInt 1)])], [(1, 0)]⟩
    ⟨[[("_id", .vInt 1), ("v", .vInt 9)]], [[("_id", .vInt 1), ("v", .vInt 9)]]⟩
    "down"
    [("_id", .vInt 1)] [("_id", .vInt 1)]
    [("_id", .vInt 1), ("x", .vInt 1)] [("_id", .vInt 1), ("x", .vInt 1)]
    [("_id", .vInt 1), ("v", .vInt 9)] [("_id", .vInt 1), ("v", .vInt 9)]
    (by unfold NoDupKeys; decide) (by unfold NoDupKeys; decide)
    rfl rfl rfl rfl rfl rfl

/-- C7 (counterexample): the claimed invariant — `playlist`, `history`,
`inbox` always present and preserved by every operation *including
`$unset`* — fails: a successful
`update_user(1, {"$unset": {"playlist": ""}})` removes `playlist` from
the cached (and returned) user document. -/
theorem unset_removes_playlist_cex :
    (updateUser 10 1 [("$unset", [("playlist", .vStr "")])] false
        ⟨[], [(1, [("_id", .vInt 1),
                   ("playlist", .vDict [("200", .vDict [("name", .vStr "Favourite")])]),
                   ("history", .vList []), ("inbox", .vList [])])], [(1, 0)]⟩
        ⟨[], []⟩ (.ok 1)).1 = .ok true
    ∧ (updateUser 10 1 [("$unset", [("playlist", .vStr "")])] false
        ⟨[], [(1, [("_id", .vInt 1),
                   ("playlist", .vDict [("200", .vDict [("name", .vStr "Favourite")])]),
                   ("history", .vList []), ("inbox", .vList [])])], [(1, 0)]⟩
        ⟨[], []⟩ (.ok 1)).2.1.usersBuffer
      = [(1, [("_id", .vInt 1), ("history", .vList []), ("inbox", .vList [])])]
    ∧ alGet [("_id", Val.vInt 1), ("history", Val.vList []), ("inbox", Val.vList [])]
        "playlist" = none :=
  ⟨rfl, rfl, rfl⟩

/-- C7 (amended): every user document the handler *creates* carries
`playlist`, `history` and `inbox` (they are default-populated), the
document cached by a fresh `get_user` is exactly that default,
`get_user` with a declared subfield lazily re-populates a missing
subfield in the cached document, and a confirmed `delete_user` removes
the cache entry so the next access recreates the default — but the
invariant is not preserved by `update_user` with `$unset` on one of the
three fields (the counterexample), so it holds only away from such
updates. -/
theorem user_default_fields_present
    (now now3 : Nat) (k k2 k3 : Int) (st st2 st3 : DBState) (bk bk2 bk3 : Backend)
    (doc2 : Obj)
    (hmiss : alMem st.usersBuffer k = false)
    (hfind : findOne bk.users k = none)
    (hget2 : alGet st2.usersBuffer k2 = some doc2)
    (hnone : alGet doc2 "playlist" = none)
    (hdel : (deleteOne bk3.users k3).2 = true)
    (hnd3 : NoDupKeys st3.usersBuffer) :
    (alGet (mergeObj [("_id", .vInt k)] userBase) "playlist").isSome = true
    ∧ (alGet (mergeObj [("_id", .vInt k)] userBase) "history").isSome = true
    ∧ (alGet (mergeObj [("_id", .vInt k)] userBase) "inbox").isSome = true
    ∧ (getUser now k none st bk).1 = .ok (.vDict (mergeObj [("_id", .vInt k)] userBase))
    ∧ alGet (getUser now k none st bk).2.1.usersBuffer k
      = some (mergeObj [("_id", .vInt k)] userBase)
    ∧ (getUser now3 k2 (some "playlist") st2 bk2).1
      = .ok ((alGet userBase "playlist").getD (.vInt 0))
    ∧ alGet (getUser now3 k2 (some "playlist") st2 bk2).2.1.usersBuffer k2
      = some (alSet doc2 "playlist" ((alGet userBase "playlist").getD (.vInt 0)))
    ∧ alGet (alSet doc2 "playlist" ((alGet userBase "playlist").getD (.vInt 0)))
        "playlist" = some ((alGet userBase "playlist").getD (.vInt 0))
    ∧ alGet (deleteUser k3 st3 bk3).2.1.usersBuffer k3 = none := by
  have hmem2 : alMem st2.usersBuffer k2 = true := by
    unfold alMem
    rw [hget2]
    rfl
  refine ⟨rfl, rfl, rfl, ?_, ?_, ?_, ?_, alGet_alSet_self _ _ _, ?_⟩
  · unfold getUser
    simp [hmiss, hfind]
  · unfold getUser
    simp [hmiss, hfind, alGet_alSet_self]
  · unfold getUser
    simp [hmem2, hget2, hnone, show alMem userBase "playlist" = true from rfl]
  · unfold getUser
    simp [hmem2, hget2, hnone, alGet_alSet_self,
      show alMem userBase "playlist" = true from rfl]
  · unfold deleteUser
    cases hdo : deleteOne bk3.users k3 with
    | mk users' b =>
      rw [hdo] at hdel
      simp at hdel
      subst hdel
      simp [alGet_alPop_self hnd3]

/-- C7 (witness): the amended theorem at concrete inputs — user 5 is
created fresh with all three fields, user 2's cached document (missing
`playlist`) is repopulated by a `get_user(2, d_type="playlist")`, and a
confirmed deletion of user 3 clears its cache entry. -/
theorem user_default_fields_present_witness :
    (alGet (mergeObj [("_id", .vInt 5)] userBase) "playlist").isSome = true
    ∧ (alGet (mergeObj [("_id", .vInt 5)] userBase) "history").isSome = true
    ∧ (alGet (mergeObj [("_id", .vInt 5)] userBase) "inbox").isSome = true
    ∧ (getUser 1 5 none ⟨[], [], []⟩ ⟨[], []⟩).1
      = .ok (.vDict (mergeObj [("_id", .vInt 5)] userBase))
    ∧ alGet (getUser 1 5 none ⟨[], [], []⟩ ⟨[], []⟩).2.1.usersBuffer 5
      = some (mergeObj [("_id", .vInt 5)] userBase)
    ∧ (getUser 2 2 (some "playlist") ⟨[], [(2, [("_id", .vInt 2)])], []⟩ ⟨[], []⟩).1
      = .ok ((alGet userBase "playlist").getD (.vInt 0))
    ∧ alGet (getUser 2 2 (some "playlist")
        ⟨[], [(2, [("_id", .vInt 2)])], []⟩ ⟨[], []⟩).2.1.usersBuffer 2
      = some (alSet [("_id", .vInt 2)] "playlist" ((alGet userBase "playlist").getD (.vInt 0)))
    ∧ alGet (alSet [("_id", .vInt 2)] "playlist" ((alGet userBase "playlist").getD (.vInt 0)))
        "playlist" = some ((alGet userBase "playlist").getD (.vInt 0))
    ∧ alGet (deleteUser 3 ⟨[], [(3, [("_id", .vInt 3)])], []⟩
        ⟨[], [[("_id", .vInt 3)]]⟩).2.1.usersBuffer 3 = none :=
  user_default_fields_present 1 2 5 2 3
    ⟨[], [], []⟩ ⟨[], [(2, [("_id", .vInt 2)])], []⟩ ⟨[], [(3, [("_id", .vInt 3)])], []⟩
    ⟨[], []⟩ ⟨[], []⟩ ⟨[], [[("_id", .vInt 3)]]⟩
    [("_id", .vInt 2)]
    rfl rfl rfl rfl rfl (by unfold NoDupKeys; decide)

theorem trimLoop_id {m : Nat} (fuel : Nat) (st : DBState)
    (h : st.settingsBuffer.length ≤ m) : trimLoop m fuel st = st := by
  cases fuel with
  | zero => rfl
  | succ f =>
    rw [trimLoop]
    have : ¬ (m < st.settingsBuffer.length) := by omega
    simp [this]

theorem foldPopBoth_settings_len_le (ids : List Int) (st : DBState) :
    (ids.foldl popBoth st).settingsBuffer.length ≤ st.settingsBuffer.length := by
  induction ids generalizing st with
  | nil => exact le_refl _
  | cons g rest ih =>
    rw [List.foldl_cons]
    exact le_trans (ih (popBoth st g))
      (List.Sublist.length_le (alPop_sublist st.settingsBuffer g))

/-- C9: `_last_access` is one map shared by both collections and keyed by
the raw numeric id.  With id 5 cached in both collections under
timestamp `t1`, a successful `update_user(5, ...)` at time `t2`
overwrites the single timestamp entry to `t2`; that same entry is what
the maintenance sweep consults for the *settings* entry of guild 5, so
the settings entry survives the sweep exactly when `now − t2 ≤ TTL`,
regardless of `t1` — and, vice versa, a later `update_settings(5, ...)`
at `t3` overwrites the same single entry again. -/
theorem shared_last_access_cross_collection (t1 t2 t3 now : Nat) :
    (updateUser t2 5 [("$set", [("x", .vInt 1)])] false
        ⟨[(5, [("_id", .vInt 5)])], [(5, [("_id", .vInt 5)])], [(5, t1)]⟩
        ⟨[], []⟩ (.ok 1)).1 = .ok true
    ∧ (updateUser t2 5 [("$set", [("x", .vInt 1)])] false
        ⟨[(5, [("_id", .vInt 5)])], [(5, [("_id", .vInt 5)])], [(5, t1)]⟩
        ⟨[], []⟩ (.ok 1)).2.1
      = ⟨[(5, [("_id", .vInt 5)])], [(5, [("_id", .vInt 5), ("x", .vInt 1)])], [(5, t2)]⟩
    ∧ (now - t2 ≤ 300 →
        alMem (cleanupCache now
          ⟨[(5, [("_id", .vInt 5)])], [(5, [("_id", .vInt 5), ("x", .vInt 1)])],
           [(5, t2)]⟩).settingsBuffer 5 = true)
    ∧ (300 < now - t2 →
        alMem (cleanupCache now
          ⟨[(5, [("_id", .vInt 5)])], [(5, [("_id", .vInt 5), ("x", .vInt 1)])],
           [(5, t2)]⟩).settingsBuffer 5 = false)
    ∧ (updateSettings t3 5 [("$set", [("x", .vInt 1)])] false
        ⟨[(5, [("_id", .vInt 5)])], [(5, [("_id", .vInt 5), ("x", .vInt 1)])], [(5, t2)]⟩
        ⟨[], []⟩ (.ok 1)).2.1.lastAccess = [(5, t3)] := by
  have hnds : NoDupKeys
      (⟨[(5, [("_id", Val.vInt 5)])], [(5, [("_id", Val.vInt 5), ("x", Val.vInt 1)])],
        [(5, t2)]⟩ : DBState).settingsBuffer := by
    unfold NoDupKeys
    simp
  have hndl : NoDupKeys
      (⟨[(5, [("_id", Val.vInt 5)])], [(5, [("_id", Val.vInt 5), ("x", Val.vInt 1)])],
        [(5, t2)]⟩ : DBState).lastAccess := by
    unfold NoDupKeys
    simp
  have hta : alGet
      (⟨[(5, [("_id", Val.vInt 5)])], [(5, [("_id", Val.vInt 5), ("x", Val.vInt 1)])],
        [(5, t2)]⟩ : DBState).lastAccess 5 = some t2 := rfl
  have hdrop := @dropExpired_mem 300 now _ 5 t2 hnds hndl hta
  have hlen : (dropExpired 300 now
      ⟨[(5, [("_id", Val.vInt 5)])], [(5, [("_id", Val.vInt 5), ("x", Val.vInt 1)])],
       [(5, t2)]⟩).settingsBuffer.length ≤ 10000 := by
    unfold dropExpired
    have := foldPopBoth_settings_len_le
      (expiredSettings 300 now
        ⟨[(5, [("_id", Val.vInt 5)])], [(5, [("_id", Val.vInt 5), ("x", Val.vInt 1)])],
         [(5, t2)]⟩)
      ⟨[(5, [("_id", Val.vInt 5)])], [(5, [("_id", Val.vInt 5), ("x", Val.vInt 1)])],
       [(5, t2)]⟩
    simp at this
    omega
  have hcleanup : cleanupCache now
      ⟨[(5, [("_id", Val.vInt 5)])], [(5, [("_id", Val.vInt 5), ("x", Val.vInt 1)])],
       [(5, t2)]⟩
      = dropExpired 300 now
        ⟨[(5, [("_id", Val.vInt 5)])], [(5, [("_id", Val.vInt 5), ("x", Val.vInt 1)])],
         [(5, t2)]⟩ := by
    unfold cleanupCache cleanupCacheWith CACHE_TTL MAX_CACHE_SIZE
    exact trimLoop_id _ _ hlen
  refine ⟨rfl, rfl, ?_, ?_, rfl⟩
  · intro h
    rw [hcleanup, hdrop]
    have hnot : ¬ (300 < now - t2) := by omega
    simp [hnot]
    rfl
  · intro h
    rw [hcleanup, hdrop]
    simp [h]

/-- C9 (witness): the shared-timestamp theorem at `t1 = 0`, `t2 = 900`,
`now = 1000` (the settings entry survives because the *user* update
refreshed the shared timestamp) and again at `now = 1300` (where the
shared timestamp is expired and the settings entry goes). -/
theorem shared_last_access_cross_collection_witness :
    alMem (cleanupCache 1000
      ⟨[(5, [("_id", .vInt 5)])], [(5, [("_id", .vInt 5), ("x", .vInt 1)])],
       [(5, 900)]⟩).settingsBuffer 5 = true
    ∧ alMem (cleanupCache 1300
      ⟨[(5, [("_id", .vInt 5)])], [(5, [("_id", .vInt 5), ("x", .vInt 1)])],
       [(5, 900)]⟩).settingsBuffer 5 = false
    ∧ (updateUser 900 5 [("$set", [("x", .vInt 1)])] false
        ⟨[(5, [("_id", .vInt 5)])], [(5, [("_id", .vInt 5)])], [(5, 0)]⟩
        ⟨[], []⟩ (.ok 1)).2.1
      = ⟨[(5, [("_id", .vInt 5)])], [(5, [("_id", .vInt 5), ("x", .vInt 1)])], [(5, 900)]⟩ :=
  ⟨(shared_last_access_cross_collection 0 900 950 1000).2.2.1 (by decide),
   (shared_last_access_cross_collection 0 900 950 1300).2.2.2.1 (by decide),
   (shared_last_access_cross_collection 0 900 950 1000).2.1⟩

/-- C8: `get_settings` (line 303) and `get_user` with `need_copy=True`
(line 399) return `copy.deepcopy` of the cache entry.  In the heap
model: the copy reads back as exactly the cached document, its root is a
fresh address and the whole copied structure lives in the fresh region
(`RegionClosed`), and mutating *any* address in that fresh region — the
only addresses a caller holding the returned object can reach — leaves
every read of the cached document unchanged. -/
theorem deepcopy_read_independent
    (H : Heap) (a fuel : Nat) (H' : Heap) (a' : Nat)
    (hcl : ClosedBelow H H.length) (ha : a < H.length)
    (hcopy : pyDeepcopy fuel H a = some (H', a')) :
    (∀ g, readT g H' a' = readT g H a)
    ∧ H.length ≤ a'
    ∧ RegionClosed H.length H'
    ∧ (∀ b node2 g, H.length ≤ b →
        readT g (setNode H' b node2) a = readT g H a) := by
  obtain ⟨hext, ha'1, ha'2, hrc⟩ :=
    pyDeepcopy_spec fuel H.length H a H' a' (le_refl _) (regionClosed_self H) hcopy
  refine ⟨fun g => readT_copy g fuel H a H' a' hcl hcopy, ha'1, hrc, ?_⟩
  intro b node2 g hb
  obtain ⟨ext, rfl⟩ := hext
  have hag : ∀ i, i < H.length → H[i]? = (setNode (H ++ ext) b node2)[i]? := by
    intro i hi
    unfold setNode
    rw [List.getElem?_set_ne (by omega), List.getElem?_append_left hi]
  exact (readT_agree hcl hag g a ha).symm

/-- C8 (witness): the independence theorem on the concrete two-node heap
`[leaf 7, {"x": @0}]` with the cached document rooted at address 1: the
deep copy (root 3) reads back equal to the cached document, its root is
fresh, and overwriting the copy's root (a caller mutation of the
returned object) leaves the cached document's read unchanged. -/
theorem deepcopy_read_independent_witness :
    (readT 2 [HNode.leaf (.vInt 7), HNode.hobj [("x", 0)], HNode.leaf (.vInt 7),
              HNode.hobj [("x", 2)]] 3
      = readT 2 [HNode.leaf (.vInt 7), HNode.hobj [("x", 0)]] 1)
    ∧ (2 : Nat) ≤ 3
    ∧ (readT 2 (setNode [HNode.leaf (.vInt 7), HNode.hobj [("x", 0)],
                         HNode.leaf (.vInt 7), HNode.hobj [("x", 2)]] 3 (HNode.hobj [])) 1
      = readT 2 [HNode.leaf (.vInt 7), HNode.hobj [("x", 0)]] 1) :=
  have hcl : ClosedBelow [HNode.leaf (.vInt 7), HNode.hobj [("x", 0)]] 2 := by
    intro i node hi hget c hc
    interval_cases i
    · injection hget with h
      subst h
      simp [childAddrs] at hc
    · injection hget with h
      rw [← h] at hc
      simp [childAddrs] at hc
      omega
  have hcopy : pyDeepcopy 3 [HNode.leaf (.vInt 7), HNode.hobj [("x", 0)]] 1
      = some ([HNode.leaf (.vInt 7), HNode.hobj [("x", 0)], HNode.leaf (.vInt 7),
               HNode.hobj [("x", 2)]], 3) := by
    simp [pyDeepcopy, pyDeepcopyFields, pyDeepcopyList]
  ⟨(deepcopy_read_independent _ 1 3 _ 3 hcl (by decide) hcopy).1 2,
   (deepcopy_read_independent _ 1 3 _ 3 hcl (by decide) hcopy).2.1,
   (deepcopy_read_independent _ 1 3 _ 3 hcl (by decide) hcopy).2.2.2 3 (HNode.hobj [])
     2 (by decide)⟩
